import Mathlib

/-!
Verification development for the `turnbase_0` repository.

Shallow embedding of:
* the weighted turn-order draw of `BattleScene::start_round`
  (`src/game/src/scenes/battle_scene/mod.rs`),
* the battle UI menu logic of `UiMenus` (`src/game/src/scenes/battle_scene/ui.rs`),
* the texture instance pool (`src/renderer/src/pipelines/texture_pipeline.rs`,
  `src/renderer/src/tools.rs`),
* the glyph atlas cache and text preparation pass (`src/renderer/src/text_shared.rs`).

Machine integers are modelled as `Nat`/`Int` with explicit wrapping where the
source performs `as` casts or wrapping arithmetic; fallible paths (`unwrap`,
`todo` / `unimplemented` panics, fallible index accesses) are modelled with
`Option`/`Except`, where `none` stands for a panic of the Rust program.
-/

namespace Battle

/-!
`BattleScene::start_round` collects one `(speed, entity)` pair per roster
member into `character_weights`, sums the speeds into `weight`, and then runs:

```rust
while !character_weights.is_empty() {
    if character_weights.len() == 1 {
        self.turn_order.push_back(character_weights[0].1);
        break;
    }
    let roll = rng.gen_range(0..weight);
    let mut acc = 0;
    let character = character_weights.iter().enumerate()
        .find(|(_, (weight, _))| match (acc + weight) > roll {
            true => true,
            false => { acc += weight; false }
        }).unwrap();
    self.turn_order.push_back(character.1.1);
    weight -= character.1.0;
    character_weights.remove(character.0);
}
```

Entities are modelled as values of a type `α` (the demo uses `hecs::Entity`
ids).  The random source `rng.gen_range(0..weight)` is modelled as a list of
`Nat` draws; a draw that is not `< weight` (including the empty-range panic
when `weight = 0`) and an exhausted draw list are modelled as `none`.
-/

/-- Linear scan of `character_weights` accumulating weight until the
accumulator exceeds the draw (`find` with the mutable `acc` of the source),
returning the selected `(weight, entity)` pair together with the remaining
candidate list (the source records the index and calls `remove(index)`).
`none` models the `.unwrap()` panic when no candidate is found. -/
def pickCandidate {α : Type} (roll : Nat) : Nat → List (Nat × α) → Option ((Nat × α) × List (Nat × α))
  | _, [] => none
  | acc, c :: rest =>
    if acc + c.1 > roll then some (c, rest)
    else
      match pickCandidate roll (acc + c.1) rest with
      | none => none
      | some (chosen, rem) => some (chosen, c :: rem)

/-- Total weight of the remaining candidates (`weight += character.stats.speed`). -/
def sumWeights {α : Type} : List (Nat × α) → Nat
  | [] => 0
  | c :: rest => c.1 + sumWeights rest

/-- The `while !character_weights.is_empty()` loop of `start_round`.  The
`fuel` argument bounds the iteration count; `start_round` passes the candidate
count, which always suffices because every iteration removes one candidate.
`rolls` is the sequence of values returned by the random source; an
out-of-range draw (in particular any draw from the empty range `0..0`) and an
exhausted sequence are modelled as `none`. -/
def startRoundLoop {α : Type} : Nat → List (Nat × α) → Nat → List Nat → Option (List α)
  | _, [], _, _ => some []
  | _, [c], _, _ => some [c.2]
  | 0, _ :: _ :: _, _, _ => none
  | fuel + 1, c :: c' :: cs, weight, rolls =>
    match rolls with
    | [] => none
    | roll :: rolls =>
      if roll < weight then
        match pickCandidate roll 0 (c :: c' :: cs) with
        | none => none
        | some (chosen, rest) =>
          match startRoundLoop fuel rest (weight - chosen.1) rolls with
          | none => none
          | some out => some (chosen.2 :: out)
      else none

/-- `BattleScene::start_round` on a candidate list: total the weights, then run
the draw loop, producing the turn-order queue. -/
def startRound {α : Type} (candidates : List (Nat × α)) (rolls : List Nat) : Option (List α) :=
  startRoundLoop candidates.length candidates (sumWeights candidates) rolls

theorem pickCandidate_perm {α : Type} (roll : Nat) :
    ∀ (acc : Nat) (cs : List (Nat × α)) (c : Nat × α) (rest : List (Nat × α)),
      pickCandidate roll acc cs = some (c, rest) → cs.Perm (c :: rest) := by
  intro acc cs
  induction cs generalizing acc with
  | nil => intro c rest h; simp [pickCandidate] at h
  | cons hd tl ih =>
    intro c rest h
    simp only [pickCandidate] at h
    by_cases hcond : acc + hd.1 > roll
    · simp [hcond] at h
      obtain ⟨h1, h2⟩ := h
      subst h1; subst h2
      exact List.Perm.refl _
    · simp [hcond] at h
      cases hrec : pickCandidate roll (acc + hd.1) tl with
      | none => rw [hrec] at h; simp at h
      | some val =>
        rw [hrec] at h
        obtain ⟨chosen, rem⟩ := val
        simp at h
        obtain ⟨h1, h2⟩ := h
        subst h1; subst h2
        have hperm := ih (acc + hd.1) chosen rem hrec
        exact (hperm.cons hd).trans (List.Perm.swap chosen hd rem)

theorem startRoundLoop_perm {α : Type} :
    ∀ (fuel : Nat) (cs : List (Nat × α)) (weight : Nat) (rolls : List Nat) (out : List α),
      startRoundLoop fuel cs weight rolls = some out → out.Perm (cs.map Prod.snd) := by
  intro fuel
  induction fuel with
  | zero =>
    intro cs weight rolls out h
    match cs with
    | [] => simp [startRoundLoop] at h; simp [h]
    | [c] => simp [startRoundLoop] at h; simp [h]
    | c :: c' :: cs => simp [startRoundLoop] at h
  | succ fuel ih =>
    intro cs weight rolls out h
    match cs with
    | [] => simp [startRoundLoop] at h; simp [h]
    | [c] => simp [startRoundLoop] at h; simp [h]
    | c :: c' :: cs =>
      simp only [startRoundLoop] at h
      match rolls with
      | [] => simp at h
      | roll :: rolls =>
        simp only at h
        by_cases hroll : roll < weight
        · simp only [if_pos hroll] at h
          cases hpick : pickCandidate roll 0 (c :: c' :: cs) with
          | none => rw [hpick] at h; simp at h
          | some val =>
            rw [hpick] at h
            obtain ⟨chosen, rest⟩ := val
            simp only at h
            cases hrec : startRoundLoop fuel rest (weight - chosen.1) rolls with
            | none => rw [hrec] at h; simp at h
            | some out' =>
              rw [hrec] at h
              simp at h
              subst h
              have hperm := pickCandidate_perm roll 0 (c :: c' :: cs) chosen rest hpick
              have hih := ih rest (weight - chosen.1) rolls out' hrec
              have hstep : (chosen.2 :: out').Perm ((chosen :: rest).map Prod.snd) :=
                hih.cons chosen.2
              exact hstep.trans (hperm.map Prod.snd).symm
        · simp [hroll] at h

/-- C1: for every battle roster whose friendly and enemy entity sets are
disjoint, one execution of `start_round` produces a turn-order queue that is a
permutation of friendly ∪ enemy — same multiset of participant references, no
duplicates, no omissions — for every sequence of values returned by the random
source (a run that completes, i.e. returns `some`). -/
theorem c1_startRound_perm (friendly enemy : List Nat) (speed : Nat → Nat)
    (rolls : List Nat) (out : List Nat)
    (hdisj : ∀ e ∈ friendly, e ∉ enemy)
    (hnf : friendly.Nodup) (hne : enemy.Nodup)
    (h : startRound ((friendly ++ enemy).map (fun e => (speed e, e))) rolls = some out) :
    out.Perm (friendly ++ enemy) ∧ out.Nodup := by
  have hperm := startRoundLoop_perm _ _ _ _ _ h
  rw [List.map_map] at hperm
  have hmap : (Prod.snd ∘ fun e => (speed e, e)) = id := by
    funext e; rfl
  rw [hmap, List.map_id] at hperm
  refine ⟨hperm, hperm.nodup_iff.mpr ?_⟩
  exact List.Nodup.append hnf hne (fun a ha hb => hdisj a ha hb)

theorem c1_startRound_perm_witness :
    ((∀ e ∈ [0], e ∉ [1]) ∧ ([0] : List Nat).Nodup ∧ ([1] : List Nat).Nodup ∧
      startRound (([0] ++ [1]).map (fun e => (1, e))) [0] = some [0, 1]) ∧
    ([0, 1] : List Nat).Perm ([0] ++ [1]) ∧ ([0, 1] : List Nat).Nodup := by
  refine ⟨⟨by decide, by decide, by decide, by decide⟩, ?_⟩
  exact c1_startRound_perm [0] [1] (fun _ => 1) [0] [0, 1]
    (by decide) (by decide) (by decide) (by decide)

/-- C8: in the weighted turn-order draw with exactly two remaining candidates
of weights `[10, 0]`, the zero-weight participant is always appended last: for
every value `roll` the random source can return (`roll < 10`, the draw range),
the draw selects the weight-10 candidate first and then appends the
zero-weight one directly. -/
theorem c8_zero_weight_last (a b : Nat) (roll : Nat) (rolls : List Nat)
    (h : roll < 10) :
    startRound [(10, a), (0, b)] (roll :: rolls) = some [a, b] := by
  simp only [startRound, sumWeights, startRoundLoop, pickCandidate, List.length]
  have h10 : 0 + 10 > roll := by omega
  simp [h, h10, startRoundLoop]

theorem c8_zero_weight_last_witness :
    (3 < 10) ∧ startRound [(10, 7), (0, 9)] [3] = some [7, 9] :=
  ⟨by decide, c8_zero_weight_last 7 9 3 [] (by decide)⟩

end Battle

namespace BattleUi

/-!
Embedding of `src/game/src/characters/actions.rs` and
`src/game/src/scenes/battle_scene/ui.rs`.

Entities (`hecs::Entity`) are modelled as `Nat`.  The `Ui3d` component keeps
its `options : Vec<String>` and `selected : u8` fields; the fixed visual
styling fields (`menu_color`, `selection_color`, `font_size`, all `f32`) do
not enter any menu logic and are omitted.  `selected` is stored as a `Nat`
that is always the image of a `u8` (writes go through `u8OfI8`).
-/

/-- Target-selection policy of an action (`TargetType` in `actions.rs`). -/
inductive TargetType where
  | none
  | any (canTargetCaster : Bool)
  | caster
  | friendly (canTargetCaster : Bool)
  | enemy
deriving DecidableEq

/-- Resolution effect of an action (`ActionResolution` in `actions.rs`). -/
inductive ActionResolution where
  | none
  | damage (amount : Nat)
  | heal (amount : Nat)
deriving DecidableEq

/-- An immutable action definition (`Action` in `actions.rs`). -/
structure Action where
  name : String
  target : TargetType
  resolution : ActionResolution
deriving DecidableEq

/-- The `Ui3d` menu component: option strings and the selected index. -/
structure Ui3d where
  options : List String
  selected : Nat
deriving DecidableEq

/-- Logical menu input (`UiMenuAction` in `ui.rs`). -/
inductive UiMenuAction where
  | back
  | forward
  | select
deriving DecidableEq

/-- Result of one `UiMenus::tick` (`UiMenuOutput` in `ui.rs`). -/
inductive UiMenuOutput where
  | none
  | skipTurn
deriving DecidableEq

/-- The keys newly pressed this frame (`keys.just_pressed(...)`, edge
triggered). -/
structure Keys where
  up : Bool
  down : Bool
  enter : Bool
  right : Bool
  left : Bool
deriving DecidableEq

/-- Reinterpretation of an unsigned machine integer's low byte as an `i8`
(the Rust casts `ui.selected as i8` and `ui.options.len() as i8`, which
truncate and never panic). -/
def asI8 (n : Nat) : Int :=
  if n % 256 < 128 then (n % 256 : Int) else (n % 256 : Int) - 256

/-- Wrap an integer into the `i8` range (two's-complement wrapping of the i8
additions and subtractions in `process_input`; the reachable operands never
overflow, so the debug/release overflow-behaviour difference is immaterial
except through `i8Wrap`'s wrapping choice). -/
def i8Wrap (z : Int) : Int :=
  ((z + 128) % 256 + 256) % 256 - 128

/-- Reinterpretation of an `i8` value as a `u8` (the final `as u8` cast of
`process_input`). -/
def u8OfI8 (z : Int) : Nat :=
  ((z % 256 + 256) % 256).toNat

/-- Rust's `Ord::clamp(self, min, max)`: asserts `min <= max` (panic, modelled
as `none`, when violated) and otherwise clamps. -/
def clampI8 (x lo hi : Int) : Option Int :=
  if lo ≤ hi then some (if x < lo then lo else if x > hi then hi else x) else none

/-- `UiMenus::process_input`: reads the newly pressed keys, derives the
selection delta `dir = down - up` and the logical action (Enter = Select,
ArrowRight = Forward, ArrowLeft = Back, in that priority), then updates
`ui.selected = (ui.selected as i8 + dir).clamp(0, ui.options.len() as i8 - 1) as u8`.
`none` models the clamp panic when `0 > ui.options.len() as i8 - 1`.
First the selection delta `down_pressed as i8 - up_pressed as i8`: -/
def uiDir (keys : Keys) : Int :=
  (if keys.down then 1 else 0) - (if keys.up then 1 else 0)

/-- The logical menu action produced by `process_input`. -/
def uiAction (keys : Keys) : Option UiMenuAction :=
  if keys.enter then some UiMenuAction.select
  else if keys.right then some UiMenuAction.forward
  else if keys.left then some UiMenuAction.back
  else none

/-- The whole of `UiMenus::process_input`, combining `uiDir` and `uiAction`
with the clamped selection update. -/
def processInput (keys : Keys) (ui : Ui3d) : Option (Ui3d × Option UiMenuAction) :=
  let sel := i8Wrap (asI8 ui.selected + uiDir keys)
  match clampI8 sel 0 (i8Wrap (asI8 ui.options.length - 1)) with
  | none => none
  | some s => some ({ ui with selected := u8OfI8 s }, uiAction keys)

end BattleUi

namespace BattleUi

theorem asI8_of_lt (n : Nat) (h : n < 128) : asI8 n = n := by
  have hm : n % 256 = n := Nat.mod_eq_of_lt (by omega)
  simp only [asI8, hm]
  rw [if_pos h]
  omega

theorem i8Wrap_of_bounds (z : Int) (h1 : -128 ≤ z) (h2 : z ≤ 127) : i8Wrap z = z := by
  unfold i8Wrap
  omega

theorem u8OfI8_of_bounds (z : Int) (h1 : 0 ≤ z) (h2 : z ≤ 127) : u8OfI8 z = z.toNat := by
  unfold u8OfI8
  omega

theorem uiDir_bounds (keys : Keys) : -1 ≤ uiDir keys ∧ uiDir keys ≤ 1 := by
  unfold uiDir
  cases keys.down <;> cases keys.up <;> simp

set_option maxRecDepth 4000 in
/-- C5 counterexample: a menu with 129 options and selection 0, with "down"
newly pressed.  The claim predicts the selection is adjusted to `1` (clamped
to `[0, 128]`), but `ui.options.len() as i8` truncates 129 to `-127`, so the
clamp bounds are `(0, -128)` and `Ord::clamp` panics (modelled as `none`):
`process_input` produces no clamped selection at all. -/
theorem c5_counterexample :
    processInput ⟨false, true, false, false, false⟩ ⟨List.replicate 129 "", 0⟩ = none := by
  decide

/-- C5 as amended: for every UI menu whose option list has length `N` with
`1 ≤ N ≤ 127` and whose selected index is within `[0, N-1]`, `process_input`
adjusts the selection by `+1` for a newly pressed "down" and `-1` for "up"
(`uiDir`), clamps the result to `[0, N-1]`, and the resulting selection again
lies within `[0, N-1]`. -/
theorem c5_selection_clamped (keys : Keys) (ui : Ui3d)
    (h1 : 1 ≤ ui.options.length) (h2 : ui.options.length ≤ 127)
    (h3 : ui.selected + 1 ≤ ui.options.length) :
    processInput keys ui =
      some ({ ui with selected :=
          (max 0 (min ((ui.selected : Int) + uiDir keys) ((ui.options.length : Int) - 1))).toNat },
        uiAction keys) ∧
    (max 0 (min ((ui.selected : Int) + uiDir keys) ((ui.options.length : Int) - 1))).toNat + 1
      ≤ ui.options.length := by
  obtain ⟨hd1, hd2⟩ := uiDir_bounds keys
  have e1 : asI8 ui.selected = ui.selected := asI8_of_lt _ (by omega)
  have e2 : asI8 ui.options.length = ui.options.length := asI8_of_lt _ (by omega)
  have e3 : i8Wrap ((ui.options.length : Int) - 1) = (ui.options.length : Int) - 1 :=
    i8Wrap_of_bounds _ (by omega) (by omega)
  have e4 : i8Wrap ((ui.selected : Int) + uiDir keys) = (ui.selected : Int) + uiDir keys :=
    i8Wrap_of_bounds _ (by omega) (by omega)
  have hclamp :
      clampI8 ((ui.selected : Int) + uiDir keys) 0 ((ui.options.length : Int) - 1) =
        some (max 0 (min ((ui.selected : Int) + uiDir keys) ((ui.options.length : Int) - 1))) := by
    unfold clampI8
    rw [if_pos (by omega)]
    congr 1
    split_ifs <;> omega
  have hu8 :
      u8OfI8 (max 0 (min ((ui.selected : Int) + uiDir keys) ((ui.options.length : Int) - 1))) =
        (max 0 (min ((ui.selected : Int) + uiDir keys) ((ui.options.length : Int) - 1))).toNat :=
    u8OfI8_of_bounds _ (by omega) (by omega)
  constructor
  · simp only [processInput, e1, e2, e3, e4, hclamp, hu8]
  · omega

theorem c5_selection_clamped_witness :
    (1 ≤ (["a", "b"] : List String).length ∧ (["a", "b"] : List String).length ≤ 127 ∧
      0 + 1 ≤ (["a", "b"] : List String).length) ∧
    (processInput ⟨false, true, false, false, false⟩ ⟨["a", "b"], 0⟩ =
        some (⟨["a", "b"], 1⟩, none) ∧
      (1 : Nat) + 1 ≤ (["a", "b"] : List String).length) := by
  refine ⟨⟨by decide, by decide, by decide⟩, ?_⟩
  exact c5_selection_clamped ⟨false, true, false, false, false⟩ ⟨["a", "b"], 0⟩
    (by decide) (by decide) (by decide)

end BattleUi

namespace BattleUi

/-- The `UiMenus` struct: the action menu, the optional target menu and the
acting character.  The source stores entity ids whose `Ui3d` components live
in the world; the world is modelled by storing the components inline, so
"spawning a target menu entity" is `targetMenu` becoming `some`. -/
structure UiMenus where
  actionMenu : Ui3d
  targetMenu : Option Ui3d
  currentCharacter : Nat
deriving DecidableEq

/-- The eligible-target computation of `UiMenus::spawn_target_menu`:
`match (action.target, characters.friendly.contains(&caster))`.  The
`(None, _)` and `(Caster, _)` pairs fall into the source's `_ => todo!()`
arm, a panic, modelled as `none`. -/
def eligibleTargets (friendlySet enemySet : Finset Nat) (caster : Nat) :
    TargetType → Option (Finset Nat)
  | TargetType.any canTargetCaster =>
    let chars := friendlySet ∪ enemySet
    some (if canTargetCaster then chars else chars.erase caster)
  | TargetType.friendly canTargetCaster =>
    if caster ∈ friendlySet then
      some (if canTargetCaster then friendlySet else friendlySet.erase caster)
    else
      some (if canTargetCaster then enemySet else enemySet.erase caster)
  | TargetType.enemy =>
    if caster ∈ friendlySet then some friendlySet else some enemySet
  | TargetType.none => none
  | TargetType.caster => none

/-- `UiMenus::spawn_target_menu`: derive the eligible target set; if it is
empty return `Err(())` without spawning; otherwise spawn a `Ui3d` whose
options are the targets' display names (`names`, the world's `Character`
name lookup; the `HashSet` iteration order is unspecified and is modelled as
ascending entity order).  The outer `none` is the `todo!()` panic for the
`None`/`Caster` target policies. -/
def spawnTargetMenu (friendlySet enemySet : Finset Nat) (caster : Nat)
    (action : Action) (names : Nat → String) : Option (Except Unit Ui3d) :=
  match eligibleTargets friendlySet enemySet caster action.target with
  | none => none
  | some options =>
    if options = ∅ then some (Except.error ())
    else
      some (Except.ok { options := (options.sort (· ≤ ·)).map names, selected := 0 })

/-- Resolution of a character's action ids to display names in
`UiMenus::new` (`actions.get_action(action).unwrap().name.clone()`; `none`
models the `unwrap` panic on an unknown id). -/
def resolveActionNames (repo : Nat → Option Action) : List Nat → Option (List String)
  | [] => some []
  | a :: rest =>
    match repo a with
    | none => none
    | some action =>
      match resolveActionNames repo rest with
      | none => none
      | some names => some (action.name :: names)

/-- `UiMenus::new`: collect the acting character's action names; if the list
is empty return `Err(())` without spawning; otherwise spawn the action menu
(`Ui3d` with those options, default selection 0) and no target menu. -/
def uiMenusNew (repo : Nat → Option Action) (charActions : List Nat)
    (currentCharacter : Nat) : Option (Except Unit UiMenus) :=
  match resolveActionNames repo charActions with
  | none => none
  | some names =>
    if names.isEmpty then some (Except.error ())
    else
      some (Except.ok
        { actionMenu := { options := names, selected := 0 },
          targetMenu := none, currentCharacter := currentCharacter })

/-- The Forward/Select arm of `UiMenus::tick`'s action-menu branch: look up
the selected action id (`character.actions.get(ui.selected).unwrap()`),
resolve it in the repository (`unwrap`), and either finish the turn
(`TargetType::None | TargetType::Caster => return UiMenuOutput::SkipTurn`) or
attempt to spawn a target menu, discarding a spawn failure (`.ok()`). -/
def tickSelected (repo : Nat → Option Action) (charActions : List Nat)
    (friendlySet enemySet : Finset Nat) (names : Nat → String)
    (m : UiMenus) (am' : Ui3d) : Option (UiMenus × UiMenuOutput) :=
  match charActions.get? am'.selected with
  | none => none
  | some actionId =>
    match repo actionId with
    | none => none
    | some action =>
      match action.target with
      | TargetType.none => some ({ m with actionMenu := am' }, UiMenuOutput.skipTurn)
      | TargetType.caster => some ({ m with actionMenu := am' }, UiMenuOutput.skipTurn)
      | _ =>
        match spawnTargetMenu friendlySet enemySet m.currentCharacter action names with
        | none => none
        | some (Except.error _) => some ({ m with actionMenu := am' }, UiMenuOutput.none)
        | some (Except.ok tm) =>
          some ({ m with actionMenu := am', targetMenu := some tm }, UiMenuOutput.none)

/-- `UiMenus::tick`: process the target menu when one exists (Forward/Select
resolve the turn, Back despawns it), otherwise process the action menu.
`position_children` only rewrites `Transform` components and does not touch
any menu state, so it has no footprint in this embedding.  `none` models the
panics inside `process_input`/lookups. -/
def tick (keys : Keys) (repo : Nat → Option Action) (charActions : List Nat)
    (friendlySet enemySet : Finset Nat) (names : Nat → String)
    (m : UiMenus) : Option (UiMenus × UiMenuOutput) :=
  match m.targetMenu with
  | some tm =>
    match processInput keys tm with
    | none => none
    | some (tm', act) =>
      match act with
      | some UiMenuAction.forward =>
        some ({ m with targetMenu := some tm' }, UiMenuOutput.skipTurn)
      | some UiMenuAction.select =>
        some ({ m with targetMenu := some tm' }, UiMenuOutput.skipTurn)
      | some UiMenuAction.back => some ({ m with targetMenu := none }, UiMenuOutput.none)
      | none => some ({ m with targetMenu := some tm' }, UiMenuOutput.none)
  | none =>
    match processInput keys m.actionMenu with
    | none => none
    | some (am', act) =>
      match act with
      | some UiMenuAction.forward =>
        tickSelected repo charActions friendlySet enemySet names m am'
      | some UiMenuAction.select =>
        tickSelected repo charActions friendlySet enemySet names m am'
      | _ => some ({ m with actionMenu := am' }, UiMenuOutput.none)

end BattleUi

namespace BattleUi

/-- C6: under the `Enemy` target policy the eligible target set is the
caster's own side — the entire friendly roster when the caster is friendly,
and the entire enemy roster when the caster is enemy (disjoint rosters), with
no caster exclusion. -/
theorem c6_enemy_policy_targets (friendlySet enemySet : Finset Nat) (caster : Nat)
    (hdisj : ∀ e ∈ friendlySet, e ∉ enemySet) :
    (caster ∈ friendlySet →
      eligibleTargets friendlySet enemySet caster TargetType.enemy = some friendlySet) ∧
    (caster ∈ enemySet →
      eligibleTargets friendlySet enemySet caster TargetType.enemy = some enemySet) := by
  constructor
  · intro h
    simp [eligibleTargets, h]
  · intro h
    have hnf : caster ∉ friendlySet := fun hf => hdisj caster hf h
    simp [eligibleTargets, hnf]

theorem c6_enemy_policy_targets_witness :
    (∀ e ∈ ({0} : Finset Nat), e ∉ ({1} : Finset Nat)) ∧
    ((0 ∈ ({0} : Finset Nat) →
        eligibleTargets {0} {1} 0 TargetType.enemy = some {0}) ∧
      (0 ∈ ({1} : Finset Nat) →
        eligibleTargets {0} {1} 0 TargetType.enemy = some {1})) :=
  ⟨by decide, c6_enemy_policy_targets {0} {1} 0 (by decide)⟩

/-- C7: with no target menu open, a newly pressed Forward or Select on an
action menu whose resolved action has target policy `None` or `Caster` makes
`tick` return `SkipTurn` immediately; no target menu entity is spawned and
the target-menu field stays `None`. -/
theorem c7_caster_none_skip_turn (keys : Keys) (repo : Nat → Option Action)
    (charActions : List Nat) (friendlySet enemySet : Finset Nat)
    (names : Nat → String) (m : UiMenus) (am' : Ui3d) (act : Option UiMenuAction)
    (actionId : Nat) (action : Action)
    (hTm : m.targetMenu = none)
    (hPi : processInput keys m.actionMenu = some (am', act))
    (hAct : act = some UiMenuAction.forward ∨ act = some UiMenuAction.select)
    (hGet : charActions.get? am'.selected = some actionId)
    (hRepo : repo actionId = some action)
    (hTgt : action.target = TargetType.none ∨ action.target = TargetType.caster) :
    tick keys repo charActions friendlySet enemySet names m =
      some ({ m with actionMenu := am' }, UiMenuOutput.skipTurn) ∧
    ({ m with actionMenu := am' } : UiMenus).targetMenu = none := by
  have hTick : tick keys repo charActions friendlySet enemySet names m =
      tickSelected repo charActions friendlySet enemySet names m am' := by
    rcases hAct with h | h <;> (subst h; simp only [tick, hTm, hPi])
  rw [hTick]
  simp only [tickSelected, hGet, hRepo]
  rcases hTgt with h | h <;> (rw [h]; exact ⟨rfl, hTm⟩)

theorem c7_caster_none_skip_turn_witness :
    ((⟨⟨["Idle"], 0⟩, none, 0⟩ : UiMenus).targetMenu = none ∧
      processInput ⟨false, false, true, false, false⟩
          (⟨⟨["Idle"], 0⟩, none, 0⟩ : UiMenus).actionMenu =
        some (⟨["Idle"], 0⟩, some UiMenuAction.select) ∧
      ([0] : List Nat).get? (⟨["Idle"], 0⟩ : Ui3d).selected = some 0) ∧
    (tick ⟨false, false, true, false, false⟩
        (fun _ => some ⟨"Idle", TargetType.none, ActionResolution.none⟩) [0] {0} {1}
        (fun _ => "") ⟨⟨["Idle"], 0⟩, none, 0⟩ =
      some (⟨⟨["Idle"], 0⟩, none, 0⟩, UiMenuOutput.skipTurn)) := by
  refine ⟨⟨rfl, by decide, by decide⟩, ?_⟩
  have h := c7_caster_none_skip_turn ⟨false, false, true, false, false⟩
    (fun _ => some ⟨"Idle", TargetType.none, ActionResolution.none⟩) [0] {0} {1}
    (fun _ => "") ⟨⟨["Idle"], 0⟩, none, 0⟩ ⟨["Idle"], 0⟩ (some UiMenuAction.select) 0
    ⟨"Idle", TargetType.none, ActionResolution.none⟩
    rfl (by decide) (Or.inr rfl) (by decide) rfl (Or.inl rfl)
  exact h.1

end BattleUi

namespace BattleUi

theorem resolveActionNames_length (repo : Nat → Option Action) :
    ∀ (charActions : List Nat) (names : List String),
      resolveActionNames repo charActions = some names →
        names.length = charActions.length := by
  intro charActions
  induction charActions with
  | nil => intro names h; simp [resolveActionNames] at h; simp [h.symm]
  | cons a rest ih =>
    intro names h
    simp only [resolveActionNames] at h
    cases hrepo : repo a with
    | none => rw [hrepo] at h; simp at h
    | some action =>
      rw [hrepo] at h
      cases hrec : resolveActionNames repo rest with
      | none => rw [hrec] at h; simp at h
      | some names' =>
        rw [hrec] at h
        simp at h
        subst h
        simp [ih names' hrec]

theorem eligibleTargets_subset (friendlySet enemySet : Finset Nat) (caster : Nat)
    (t : TargetType) (opts : Finset Nat)
    (h : eligibleTargets friendlySet enemySet caster t = some opts) :
    opts ⊆ friendlySet ∪ enemySet := by
  cases t with
  | none => simp [eligibleTargets] at h
  | caster => simp [eligibleTargets] at h
  | any ctc =>
    simp only [eligibleTargets] at h
    cases ctc with
    | true => simp at h; subst h; exact Finset.Subset.refl _
    | false =>
      simp at h; subst h
      exact (Finset.erase_subset _ _).trans (Finset.Subset.refl _)
  | friendly ctc =>
    simp only [eligibleTargets] at h
    by_cases hmem : caster ∈ friendlySet
    · rw [if_pos hmem] at h
      simp at h; subst h
      cases ctc with
      | true => exact Finset.subset_union_left
      | false =>
        simp only [Bool.false_eq_true, if_neg] at *
        exact (Finset.erase_subset _ _).trans Finset.subset_union_left
    · rw [if_neg hmem] at h
      simp at h; subst h
      cases ctc with
      | true => exact Finset.subset_union_right
      | false =>
        simp only [Bool.false_eq_true, if_neg] at *
        exact (Finset.erase_subset _ _).trans Finset.subset_union_right
  | enemy =>
    simp only [eligibleTargets] at h
    by_cases hmem : caster ∈ friendlySet
    · rw [if_pos hmem] at h
      simp at h; subst h
      exact Finset.subset_union_left
    · rw [if_neg hmem] at h
      simp at h; subst h
      exact Finset.subset_union_right

/-- C10: the battle UI never spawns a menu with an empty option list —
`UiMenus::new` returns `Err` for an empty action list, `spawn_target_menu`
returns `Err` for an empty eligible target set — and every spawned menu's
option count is bounded (by the action count, resp. the roster size), so for
every reachable menu (non-empty, and far below 128 options in this program)
the clamp bounds of `process_input` satisfy `0 ≤ options.len() - 1` and the
selection update never hits the invalid-bounds (`min > max`) panic branch. -/
theorem c10_menus_nonempty_no_clamp_panic :
    (∀ (repo : Nat → Option Action) (cc : Nat),
        uiMenusNew repo [] cc = some (Except.error ())) ∧
    (∀ (repo : Nat → Option Action) (charActions : List Nat) (cc : Nat) (m : UiMenus),
        uiMenusNew repo charActions cc = some (Except.ok m) →
          m.actionMenu.options ≠ [] ∧
          m.actionMenu.options.length = charActions.length ∧ m.targetMenu = none) ∧
    (∀ (fs es : Finset Nat) (caster : Nat) (action : Action) (names : Nat → String),
        eligibleTargets fs es caster action.target = some ∅ →
          spawnTargetMenu fs es caster action names = some (Except.error ())) ∧
    (∀ (fs es : Finset Nat) (caster : Nat) (action : Action) (names : Nat → String)
        (tm : Ui3d),
        spawnTargetMenu fs es caster action names = some (Except.ok tm) →
          tm.options ≠ [] ∧ tm.options.length ≤ (fs ∪ es).card) ∧
    (∀ (keys : Keys) (ui : Ui3d), ui.options ≠ [] → ui.options.length ≤ 127 →
        (0 : Int) ≤ i8Wrap (asI8 ui.options.length - 1) ∧ (processInput keys ui).isSome) := by
  refine ⟨?_, ?_, ?_, ?_, ?_⟩
  · intro repo cc
    simp [uiMenusNew, resolveActionNames]
  · intro repo charActions cc m h
    simp only [uiMenusNew] at h
    cases hres : resolveActionNames repo charActions with
    | none => rw [hres] at h; simp at h
    | some names =>
      rw [hres] at h
      by_cases hemp : names.isEmpty
      · simp [hemp] at h
      · simp [hemp] at h
        subst h
        refine ⟨?_, resolveActionNames_length repo charActions names hres, rfl⟩
        simpa [List.isEmpty_iff] using hemp
  · intro fs es caster action names h
    simp [spawnTargetMenu, h]
  · intro fs es caster action names tm h
    simp only [spawnTargetMenu] at h
    cases helig : eligibleTargets fs es caster action.target with
    | none => rw [helig] at h; simp at h
    | some opts =>
      rw [helig] at h
      by_cases hemp : opts = ∅
      · simp [hemp] at h
      · simp [hemp] at h
        subst h
        have hlen : (List.map names (Finset.sort (· ≤ ·) opts)).length = opts.card := by
          rw [List.length_map, Finset.length_sort]
        constructor
        · intro hnil
          have hnil' : List.map names (Finset.sort (· ≤ ·) opts) = [] := hnil
          rw [hnil'] at hlen
          exact hemp (Finset.card_eq_zero.mp hlen.symm)
        · show (List.map names (Finset.sort (· ≤ ·) opts)).length ≤ (fs ∪ es).card
          rw [hlen]
          exact Finset.card_le_card (eligibleTargets_subset fs es caster action.target opts helig)
  · intro keys ui hne hlen
    have h1 : 1 ≤ ui.options.length := by
      cases hopts : ui.options with
      | nil => exact absurd hopts hne
      | cons a rest => simp [hopts]
    have e2 : asI8 ui.options.length = ui.options.length := asI8_of_lt _ (by omega)
    have e3 : i8Wrap ((ui.options.length : Int) - 1) = (ui.options.length : Int) - 1 :=
      i8Wrap_of_bounds _ (by omega) (by omega)
    rw [e2, e3]
    refine ⟨by omega, ?_⟩
    simp only [processInput, e2, e3, clampI8]
    rw [if_pos (by omega : (0 : Int) ≤ (ui.options.length : Int) - 1)]
    simp

theorem c10_menus_nonempty_no_clamp_panic_witness :
    (uiMenusNew (fun _ => some ⟨"Idle", TargetType.none, ActionResolution.none⟩) [] 0 =
        some (Except.error ())) ∧
    ((uiMenusNew (fun _ => some ⟨"Idle", TargetType.none, ActionResolution.none⟩) [0] 0 =
        some (Except.ok ⟨⟨["Idle"], 0⟩, none, 0⟩)) ∧
      ((⟨⟨["Idle"], 0⟩, none, 0⟩ : UiMenus).actionMenu.options ≠ [] ∧
        (⟨⟨["Idle"], 0⟩, none, 0⟩ : UiMenus).actionMenu.options.length = [0].length ∧
        (⟨⟨["Idle"], 0⟩, none, 0⟩ : UiMenus).targetMenu = none)) ∧
    ((eligibleTargets ∅ ∅ 0 (Action.mk "Heal" (TargetType.any true) (ActionResolution.heal 5)).target
        = some ∅) ∧
      spawnTargetMenu ∅ ∅ 0 ⟨"Heal", TargetType.any true, ActionResolution.heal 5⟩
          (fun _ => "x") = some (Except.error ())) ∧
    ((spawnTargetMenu {0} {1} 0 ⟨"Punch", TargetType.enemy, ActionResolution.damage 5⟩
          (fun _ => "x") = some (Except.ok ⟨["x"], 0⟩)) ∧
      ((⟨["x"], 0⟩ : Ui3d).options ≠ [] ∧
        (⟨["x"], 0⟩ : Ui3d).options.length ≤ (({0} : Finset Nat) ∪ {1}).card)) ∧
    (((⟨[""], 0⟩ : Ui3d).options ≠ [] ∧ (⟨[""], 0⟩ : Ui3d).options.length ≤ 127) ∧
      ((0 : Int) ≤ i8Wrap (asI8 (⟨[""], 0⟩ : Ui3d).options.length - 1) ∧
        (processInput ⟨false, false, false, false, false⟩ ⟨[""], 0⟩).isSome)) := by
  have hsp : spawnTargetMenu {0} {1} 0 ⟨"Punch", TargetType.enemy, ActionResolution.damage 5⟩
      (fun _ => "x") = some (Except.ok ⟨["x"], 0⟩) := by
    simp [spawnTargetMenu, eligibleTargets, Finset.sort_singleton]
  refine ⟨?_, ⟨rfl, ?_⟩, ⟨by decide, ?_⟩, ⟨hsp, ?_⟩, ⟨by decide, ?_⟩⟩
  · exact c10_menus_nonempty_no_clamp_panic.1 (fun _ => some ⟨"Idle", TargetType.none,
      ActionResolution.none⟩) 0
  · exact c10_menus_nonempty_no_clamp_panic.2.1 (fun _ => some ⟨"Idle", TargetType.none,
      ActionResolution.none⟩) [0] 0 ⟨⟨["Idle"], 0⟩, none, 0⟩ rfl
  · exact c10_menus_nonempty_no_clamp_panic.2.2.1 ∅ ∅ 0
      ⟨"Heal", TargetType.any true, ActionResolution.heal 5⟩ (fun _ => "x") (by decide)
  · exact c10_menus_nonempty_no_clamp_panic.2.2.2.1 {0} {1} 0
      ⟨"Punch", TargetType.enemy, ActionResolution.damage 5⟩ (fun _ => "x")
      ⟨["x"], 0⟩ hsp
  · exact c10_menus_nonempty_no_clamp_panic.2.2.2.2 ⟨false, false, false, false, false⟩
      ⟨[""], 0⟩ (by decide) (by decide)

end BattleUi

namespace InstancePool

/-!
Embedding of `TextureRenderer::prep` (`src/renderer/src/pipelines/texture_pipeline.rs`)
and the instance-buffer helpers of `src/renderer/src/tools.rs`.

`wgpu::Buffer` is opaque GPU memory; a buffer is modelled by an identity `id`
(a fresh number drawn from a counter at each `device.create_buffer_init`
call, so "updated in place" is "same `id`" and "recreated" is "new `id`"),
its physical `capacity` (the element count it was created with) and its
`contents`.  Instance records (`InstanceTexture`: size, transform, color —
all floats that never enter the pool logic) are an opaque type `α`.  The
`HashMap` iteration orders are unspecified; maps are modelled as association
lists in first-insertion order, which affects none of the per-key results.
The `texture: Arc<LoadedTexture>` field riding along in
`TextureInstanceBuffer` is identified by the pool key itself and is not
duplicated in the model.
-/

/-- A `wgpu::Buffer` as created by `create_instance_buffer` /
`tools::buffer`. -/
structure GpuBuffer (α : Type) where
  id : Nat
  capacity : Nat
  contents : List α
deriving DecidableEq

/-- `tools::InstanceBuffer`: the buffer plus the logical instance count
(which `update_instance_buffer` also uses as the capacity proxy). -/
structure InstBuf (α : Type) where
  buffer : GpuBuffer α
  count : Nat
deriving DecidableEq

/-- `tools::create_instance_buffer`: a fresh buffer holding `data`, with a
new identity drawn from the counter. -/
def createInstanceBuffer {α : Type} (ctr : Nat) (data : List α) : GpuBuffer α × Nat :=
  (⟨ctr, data.length, data⟩, ctr + 1)

/-- `tools::InstanceBuffer::new`. -/
def instanceBufferNew {α : Type} (ctr : Nat) (data : List α) : InstBuf α × Nat :=
  let created := createInstanceBuffer ctr data
  (⟨created.1, data.length⟩, created.2)

/-- `tools::update_instance_buffer`: empty data empties the buffer (fresh
zero-sized buffer) when the count was non-zero; data fitting within the
current `instance_count` is written in place (`queue.write_buffer`
overwrites the first `data.len()` elements) and the logical count shrinks
without reallocating; larger data gets a fresh, bigger buffer. -/
def updateInstanceBuffer {α : Type} (ctr : Nat) (buf : InstBuf α) (data : List α) :
    InstBuf α × Nat :=
  if data.length = 0 then
    if buf.count ≠ 0 then
      let created := createInstanceBuffer ctr data
      (⟨created.1, 0⟩, created.2)
    else (buf, ctr)
  else if data.length ≤ buf.count then
    ({ buffer := { buf.buffer with
          contents := data ++ buf.buffer.contents.drop data.length },
       count := data.length }, ctr)
  else
    let created := createInstanceBuffer ctr data
    (⟨created.1, data.length⟩, created.2)

/-- Association-list lookup (`HashMap` get by key). -/
def assocLookup {α : Type} : List (Nat × α) → Nat → Option α
  | [], _ => none
  | (k, v) :: rest, key => if k = key then some v else assocLookup rest key

/-- Replace the value stored at `key` (`HashMap::entry(...).and_modify`). -/
def poolSet {α : Type} : List (Nat × α) → Nat → α → List (Nat × α)
  | [], _, _ => []
  | (k, v) :: rest, key, val =>
    if k = key then (k, val) :: rest else (k, v) :: poolSet rest key val

/-- Boolean key membership in a key list (the `previous` key set). -/
def keyMem (k : Nat) : List Nat → Bool
  | [] => false
  | k' :: rest => if k' = k then true else keyMem k rest

/-- One step of the grouping fold of `TextureRenderer::prep`
(`acc.entry(sprite.texture.id()).or_insert_with(Vec::new).push(instance)`). -/
def pushKey {α : Type} : List (Nat × List α) → Nat → α → List (Nat × List α)
  | [], key, v => [(key, [v])]
  | (k, vs) :: rest, key, v =>
    if k = key then (k, vs ++ [v]) :: rest else (k, vs) :: pushKey rest key v

/-- The grouping fold of `TextureRenderer::prep`: the world's
`(Transform, Sprite)` query results, keyed by texture id, grouped into one
instance list per key. -/
def groupInstances {α : Type} (world : List (Nat × α)) : List (Nat × List α) :=
  world.foldl (fun acc e => pushKey acc e.1 e.2) []

/-- Per-key reconciliation of `TextureRenderer::prep`:
`self.instances.entry(id).and_modify(update).or_insert_with(new)`. -/
def prepStep {α : Type} (state : List (Nat × InstBuf α) × Nat) (entry : Nat × List α) :
    List (Nat × InstBuf α) × Nat :=
  match assocLookup state.1 entry.1 with
  | some buf =>
    let updated := updateInstanceBuffer state.2 buf entry.2
    (poolSet state.1 entry.1 updated.1, updated.2)
  | none =>
    let created := instanceBufferNew state.2 entry.2
    (state.1 ++ [(entry.1, created.1)], created.2)

/-- The whole of `TextureRenderer::prep`: group the world's draw requests by
texture id, reconcile each key against the pool, then drop every pool entry
whose key was live last frame but not requested this frame (`previous`,
after removing all processed ids, is drained with `instances.remove`). -/
def prep {α : Type} (world : List (Nat × α)) (pool : List (Nat × InstBuf α)) (ctr : Nat) :
    List (Nat × InstBuf α) × Nat :=
  let grouped := groupInstances world
  let state := grouped.foldl prepStep (pool, ctr)
  let groupedKeys := grouped.map Prod.fst
  let removed := (pool.map Prod.fst).filter (fun k => !keyMem k groupedKeys)
  (state.1.filter (fun e => !keyMem e.1 removed), state.2)

/-- The list of instances requested for key `k` this frame, in world order. -/
def instancesOf {α : Type} (world : List (Nat × α)) (k : Nat) : List α :=
  (world.filter (fun e => e.1 == k)).map Prod.snd

end InstancePool

namespace InstancePool

theorem keyMem_iff (k : Nat) : ∀ l : List Nat, keyMem k l = true ↔ k ∈ l := by
  intro l
  induction l with
  | nil => simp [keyMem]
  | cons k' rest ih =>
    simp only [keyMem]
    by_cases h : k' = k
    · simp [h]
    · rw [if_neg h, ih]
      simp only [List.mem_cons]
      constructor
      · exact fun hm => Or.inr hm
      · rintro (hk | hm)
        · exact absurd hk.symm h
        · exact hm

theorem assocLookup_isSome_iff {α : Type} (k : Nat) :
    ∀ l : List (Nat × α), (assocLookup l k).isSome ↔ k ∈ l.map Prod.fst := by
  intro l
  induction l with
  | nil => simp [assocLookup]
  | cons e rest ih =>
    obtain ⟨k', v⟩ := e
    simp only [assocLookup, List.map_cons, List.mem_cons]
    by_cases h : k' = k
    · simp [h]
    · rw [if_neg h, ih]
      constructor
      · exact fun hm => Or.inr hm
      · rintro (hk | hm)
        · exact absurd hk.symm h
        · exact hm

theorem assocLookup_mem {α : Type} (k : Nat) (v : α) :
    ∀ l : List (Nat × α), assocLookup l k = some v → (k, v) ∈ l := by
  intro l
  induction l with
  | nil => intro h; simp [assocLookup] at h
  | cons e rest ih =>
    obtain ⟨k', v'⟩ := e
    intro h
    simp only [assocLookup] at h
    by_cases hk : k' = k
    · rw [if_pos hk] at h
      simp at h
      subst hk; subst h
      exact List.mem_cons_self _ _
    · rw [if_neg hk] at h
      exact List.mem_cons_of_mem _ (ih h)

theorem assocLookup_poolSet_eq {α : Type} (k : Nat) (val : α) :
    ∀ (l : List (Nat × α)) (v : α), assocLookup l k = some v →
      assocLookup (poolSet l k val) k = some val := by
  intro l
  induction l with
  | nil => intro v h; simp [assocLookup] at h
  | cons e rest ih =>
    obtain ⟨k', v'⟩ := e
    intro v h
    simp only [assocLookup] at h
    simp only [poolSet]
    by_cases hk : k' = k
    · rw [if_pos hk]
      simp [assocLookup, hk]
    · rw [if_neg hk] at h
      rw [if_neg hk]
      simp only [assocLookup, if_neg hk]
      exact ih v h

theorem assocLookup_poolSet_ne {α : Type} (k key : Nat) (val : α) (hne : key ≠ k) :
    ∀ l : List (Nat × α), assocLookup (poolSet l k val) key = assocLookup l key := by
  intro l
  induction l with
  | nil => simp [poolSet]
  | cons e rest ih =>
    obtain ⟨k', v'⟩ := e
    simp only [poolSet]
    by_cases hk : k' = k
    · rw [if_pos hk]
      subst hk
      simp only [assocLookup]
      rw [if_neg (fun h : k' = key => hne h.symm), if_neg (fun h : k' = key => hne h.symm)]
    · rw [if_neg hk]
      simp only [assocLookup]
      by_cases hky : k' = key
      · rw [if_pos hky, if_pos hky]
      · rw [if_neg hky, if_neg hky]
        exact ih

theorem assocLookup_append {α : Type} (k : Nat) :
    ∀ l q : List (Nat × α), assocLookup (l ++ q) k =
      match assocLookup l k with
      | some v => some v
      | none => assocLookup q k := by
  intro l q
  induction l with
  | nil => simp [assocLookup]
  | cons e rest ih =>
    obtain ⟨k', v'⟩ := e
    simp only [List.cons_append, assocLookup]
    by_cases hk : k' = k
    · simp [hk]
    · simp only [if_neg hk]
      exact ih

theorem assocLookup_pushKey_eq {α : Type} (k : Nat) (v : α) :
    ∀ acc : List (Nat × List α),
      assocLookup (pushKey acc k v) k =
        some ((assocLookup acc k).getD [] ++ [v]) := by
  intro acc
  induction acc with
  | nil => simp [pushKey, assocLookup]
  | cons e rest ih =>
    obtain ⟨k', vs⟩ := e
    simp only [pushKey, assocLookup]
    by_cases hk : k' = k
    · rw [if_pos hk, if_pos hk]
      simp [assocLookup, hk]
    · rw [if_neg hk, if_neg hk]
      simp only [assocLookup, if_neg hk]
      exact ih

theorem assocLookup_pushKey_ne {α : Type} (k key : Nat) (v : α) (hne : key ≠ k) :
    ∀ acc : List (Nat × List α),
      assocLookup (pushKey acc k v) key = assocLookup acc key := by
  intro acc
  induction acc with
  | nil =>
    simp only [pushKey, assocLookup]
    rw [if_neg (fun h : k = key => hne h.symm)]
  | cons e rest ih =>
    obtain ⟨k', vs⟩ := e
    simp only [pushKey]
    by_cases hk : k' = k
    · rw [if_pos hk]
      subst hk
      simp only [assocLookup]
      rw [if_neg (fun h : k' = key => hne h.symm), if_neg (fun h : k' = key => hne h.symm)]
    · rw [if_neg hk]
      simp only [assocLookup]
      by_cases hky : k' = key
      · rw [if_pos hky, if_pos hky]
      · rw [if_neg hky, if_neg hky]
        exact ih

theorem instancesOf_cons {α : Type} (e : Nat × α) (w : List (Nat × α)) (k : Nat) :
    instancesOf (e :: w) k =
      if e.1 = k then e.2 :: instancesOf w k else instancesOf w k := by
  by_cases h : e.1 = k <;> simp [instancesOf, h]

theorem groupFold_lookup {α : Type} [DecidableEq α] (k : Nat) :
    ∀ (world : List (Nat × α)) (acc : List (Nat × List α)),
      assocLookup (world.foldl (fun acc e => pushKey acc e.1 e.2) acc) k =
        match assocLookup acc k with
        | some vs => some (vs ++ instancesOf world k)
        | none =>
          if instancesOf world k = [] then none else some (instancesOf world k) := by
  intro world
  induction world with
  | nil =>
    intro acc
    simp only [List.foldl_nil]
    cases hacc : assocLookup acc k with
    | none => simp [instancesOf]
    | some vs => simp [instancesOf]
  | cons e w ih =>
    intro acc
    obtain ⟨k₀, v⟩ := e
    simp only [List.foldl_cons]
    rw [ih (pushKey acc k₀ v)]
    rw [instancesOf_cons]
    by_cases hk : k₀ = k
    · subst hk
      rw [assocLookup_pushKey_eq]
      simp only [if_pos rfl]
      cases hacc : assocLookup acc k₀ with
      | none => simp
      | some vs => simp
    · rw [assocLookup_pushKey_ne _ _ _ (fun h : k = k₀ => hk h.symm)]
      simp only [if_neg hk]

theorem groupInstances_lookup {α : Type} [DecidableEq α] (world : List (Nat × α)) (k : Nat) :
    assocLookup (groupInstances world) k =
      if instancesOf world k = [] then none else some (instancesOf world k) := by
  rw [groupInstances, groupFold_lookup]
  simp [assocLookup]

theorem instancesOf_eq_nil_iff {α : Type} (k : Nat) :
    ∀ world : List (Nat × α), instancesOf world k = [] ↔ k ∉ world.map Prod.fst := by
  intro world
  induction world with
  | nil => simp [instancesOf]
  | cons e w ih =>
    rw [instancesOf_cons]
    by_cases h : e.1 = k
    · simp [h]
    · rw [if_neg h, ih]
      simp only [List.map_cons, List.mem_cons]
      constructor
      · intro hnm
        rintro (hk | hm)
        · exact h hk.symm
        · exact hnm hm
      · intro hnm hm
        exact hnm (Or.inr hm)

theorem groupInstances_mem_keys {α : Type} [DecidableEq α] (world : List (Nat × α)) (k : Nat) :
    k ∈ (groupInstances world).map Prod.fst ↔ k ∈ world.map Prod.fst := by
  rw [← assocLookup_isSome_iff, groupInstances_lookup]
  by_cases h : instancesOf world k = []
  · simp [h, (instancesOf_eq_nil_iff k world).mp h]
  · simp only [if_neg h, Option.isSome_some, true_iff]
    by_contra hmem
    exact h ((instancesOf_eq_nil_iff k world).mpr hmem)

end InstancePool

namespace InstancePool

theorem pushKey_keys {α : Type} (k : Nat) (v : α) :
    ∀ acc : List (Nat × List α),
      (pushKey acc k v).map Prod.fst =
        if k ∈ acc.map Prod.fst then acc.map Prod.fst else acc.map Prod.fst ++ [k] := by
  intro acc
  induction acc with
  | nil => simp [pushKey]
  | cons e rest ih =>
    obtain ⟨k', vs⟩ := e
    simp only [pushKey]
    by_cases hk : k' = k
    · subst hk
      simp
    · rw [if_neg hk]
      simp only [List.map_cons, ih, List.mem_cons]
      by_cases hmem : k ∈ rest.map Prod.fst
      · rw [if_pos hmem, if_pos (Or.inr hmem)]
      · rw [if_neg hmem, if_neg ?_]
        · simp
        · rintro (hk2 | hm)
          · exact hk hk2.symm
          · exact hmem hm

theorem groupFold_keys_nodup {α : Type} :
    ∀ (world : List (Nat × α)) (acc : List (Nat × List α)),
      (acc.map Prod.fst).Nodup →
      ((world.foldl (fun acc e => pushKey acc e.1 e.2) acc).map Prod.fst).Nodup := by
  intro world
  induction world with
  | nil => intro acc h; exact h
  | cons e w ih =>
    intro acc h
    simp only [List.foldl_cons]
    refine ih _ ?_
    rw [pushKey_keys]
    by_cases hmem : e.1 ∈ acc.map Prod.fst
    · rw [if_pos hmem]; exact h
    · rw [if_neg hmem]
      refine List.Nodup.append h (List.nodup_singleton _) ?_
      intro a ha hb
      simp at hb
      subst hb
      exact hmem ha

theorem groupInstances_keys_nodup {α : Type} (world : List (Nat × α)) :
    ((groupInstances world).map Prod.fst).Nodup :=
  groupFold_keys_nodup world [] (by simp)

theorem prepStep_lookup_self {α : Type} (p : List (Nat × InstBuf α)) (c k : Nat)
    (raw : List α) :
    assocLookup (prepStep (p, c) (k, raw)).1 k =
      some (match assocLookup p k with
            | some buf => (updateInstanceBuffer c buf raw).1
            | none => (instanceBufferNew c raw).1) := by
  cases hl : assocLookup p k with
  | some buf =>
    simp only [prepStep, hl]
    exact assocLookup_poolSet_eq k _ p buf hl
  | none =>
    simp only [prepStep, hl]
    rw [assocLookup_append, hl]
    simp [assocLookup]

theorem prepStep_lookup_ne {α : Type} (p : List (Nat × InstBuf α)) (c k key : Nat)
    (raw : List α) (hne : key ≠ k) :
    assocLookup (prepStep (p, c) (k, raw)).1 key = assocLookup p key := by
  cases hl : assocLookup p k with
  | some buf =>
    simp only [prepStep, hl]
    exact assocLookup_poolSet_ne k key _ hne p
  | none =>
    simp only [prepStep, hl]
    rw [assocLookup_append]
    cases hk2 : assocLookup p key with
    | some v => simp
    | none =>
      simp only [assocLookup]
      rw [if_neg (fun h : k = key => hne h.symm)]

theorem prepStep_ctr_le {α : Type} (p : List (Nat × InstBuf α)) (c : Nat)
    (e : Nat × List α) : c ≤ (prepStep (p, c) e).2 := by
  cases hl : assocLookup p e.1 with
  | some buf =>
    simp only [prepStep, hl]
    unfold updateInstanceBuffer
    split_ifs <;> simp [createInstanceBuffer]
  | none =>
    simp only [prepStep, hl, instanceBufferNew, createInstanceBuffer]
    omega

theorem foldPrep_lookup_notmem {α : Type} (k : Nat) :
    ∀ (gl : List (Nat × List α)) (p : List (Nat × InstBuf α)) (c : Nat),
      k ∉ gl.map Prod.fst →
      assocLookup (gl.foldl prepStep (p, c)).1 k = assocLookup p k ∧
        c ≤ (gl.foldl prepStep (p, c)).2 := by
  intro gl
  induction gl with
  | nil => intro p c _; exact ⟨rfl, Nat.le_refl c⟩
  | cons e rest ih =>
    intro p c h
    obtain ⟨k₀, raw₀⟩ := e
    simp only [List.map_cons, List.mem_cons] at h
    push_neg at h
    obtain ⟨hne, hrest⟩ := h
    simp only [List.foldl_cons]
    have hstep := prepStep_lookup_ne p c k₀ k raw₀ hne
    have hctr := prepStep_ctr_le p c (k₀, raw₀)
    have hrec := ih (prepStep (p, c) (k₀, raw₀)).1 (prepStep (p, c) (k₀, raw₀)).2 hrest
    exact ⟨hrec.1.trans hstep, hctr.trans hrec.2⟩

theorem foldPrep_lookup_mem {α : Type} (k : Nat) (raw : List α) :
    ∀ (gl : List (Nat × List α)) (p : List (Nat × InstBuf α)) (c : Nat),
      (gl.map Prod.fst).Nodup → (k, raw) ∈ gl →
      ∃ cMid, c ≤ cMid ∧
        assocLookup (gl.foldl prepStep (p, c)).1 k =
          some (match assocLookup p k with
                | some buf => (updateInstanceBuffer cMid buf raw).1
                | none => (instanceBufferNew cMid raw).1) := by
  intro gl
  induction gl with
  | nil => intro p c _ hmem; simp at hmem
  | cons e rest ih =>
    intro p c hnd hmem
    obtain ⟨k₀, raw₀⟩ := e
    simp only [List.map_cons, List.nodup_cons] at hnd
    obtain ⟨hk₀, hndrest⟩ := hnd
    simp only [List.foldl_cons]
    rcases List.mem_cons.mp hmem with heq | hmemrest
    · cases heq
      refine ⟨c, Nat.le_refl c, ?_⟩
      have hnot := foldPrep_lookup_notmem k rest
        (prepStep (p, c) (k, raw)).1 (prepStep (p, c) (k, raw)).2 hk₀
      exact hnot.1.trans (prepStep_lookup_self p c k raw)
    · have hne : k ≠ k₀ := by
        intro hkk
        subst hkk
        exact hk₀ (List.mem_map_of_mem Prod.fst hmemrest)
      have hstep := prepStep_lookup_ne p c k₀ k raw₀ hne
      have hctr := prepStep_ctr_le p c (k₀, raw₀)
      obtain ⟨cMid, hcm, hlook⟩ :=
        ih (prepStep (p, c) (k₀, raw₀)).1 (prepStep (p, c) (k₀, raw₀)).2 hndrest hmemrest
      rw [hstep] at hlook
      exact ⟨cMid, hctr.trans hcm, hlook⟩

theorem assocLookup_filter_mem {α : Type} (rem : List Nat) (k : Nat) (hmem : k ∈ rem) :
    ∀ s : List (Nat × α),
      assocLookup (s.filter (fun e => !keyMem e.1 rem)) k = none := by
  intro s
  induction s with
  | nil => simp [assocLookup]
  | cons e rest ih =>
    obtain ⟨k', v⟩ := e
    rw [List.filter_cons]
    by_cases hkm : keyMem k' rem
    · simp only [hkm, Bool.not_true, reduceIte]
      exact ih
    · have hkm' : keyMem k' rem = false := by
        cases hb : keyMem k' rem
        · rfl
        · exact absurd hb hkm
      simp only [hkm', Bool.not_false, reduceIte]
      simp only [assocLookup]
      rw [if_neg ?_]
      · exact ih
      · intro hk
        subst hk
        exact hkm ((keyMem_iff k' rem).mpr hmem)

theorem assocLookup_filter_notmem {α : Type} (rem : List Nat) (k : Nat) (hnm : k ∉ rem) :
    ∀ s : List (Nat × α),
      assocLookup (s.filter (fun e => !keyMem e.1 rem)) k = assocLookup s k := by
  intro s
  induction s with
  | nil => simp [assocLookup]
  | cons e rest ih =>
    obtain ⟨k', v⟩ := e
    rw [List.filter_cons]
    by_cases hkm : keyMem k' rem
    · have hne : k' ≠ k := by
        intro hk
        subst hk
        exact hnm ((keyMem_iff k' rem).mp hkm)
      simp only [hkm, Bool.not_true, Bool.false_eq_true, reduceIte]
      rw [ih]
      simp only [assocLookup]
      rw [if_neg hne]
    · have hkm' : keyMem k' rem = false := by
        cases hb : keyMem k' rem
        · rfl
        · exact absurd hb hkm
      simp only [hkm', Bool.not_false, reduceIte]
      simp only [assocLookup]
      by_cases hk : k' = k
      · rw [if_pos hk, if_pos hk]
      · rw [if_neg hk, if_neg hk]
        exact ih

end InstancePool

namespace InstancePool

theorem foldPrep_ctr_le {α : Type} :
    ∀ (gl : List (Nat × List α)) (p : List (Nat × InstBuf α)) (c : Nat),
      c ≤ (gl.foldl prepStep (p, c)).2 := by
  intro gl
  induction gl with
  | nil => intro p c; exact Nat.le_refl c
  | cons e rest ih =>
    intro p c
    simp only [List.foldl_cons]
    exact (prepStep_ctr_le p c e).trans
      (ih (prepStep (p, c) e).1 (prepStep (p, c) e).2)

theorem prep_lookup_notmem {α : Type} [DecidableEq α] (w : List (Nat × α))
    (pool : List (Nat × InstBuf α)) (ctr k : Nat) (h : k ∉ w.map Prod.fst) :
    assocLookup (prep w pool ctr).1 k = none := by
  have hgk : k ∉ (groupInstances w).map Prod.fst :=
    fun hm => h ((groupInstances_mem_keys w k).mp hm)
  have hstate := foldPrep_lookup_notmem k (groupInstances w) pool ctr hgk
  simp only [prep]
  by_cases hpool : k ∈ pool.map Prod.fst
  · have hrem : k ∈ (pool.map Prod.fst).filter
        (fun k' => !keyMem k' ((groupInstances w).map Prod.fst)) := by
      refine List.mem_filter.mpr ⟨hpool, ?_⟩
      have : keyMem k ((groupInstances w).map Prod.fst) = false := by
        cases hb : keyMem k ((groupInstances w).map Prod.fst)
        · rfl
        · exact absurd ((keyMem_iff _ _).mp hb) hgk
      simp [this]
    exact assocLookup_filter_mem _ k hrem _
  · have hrem : k ∉ (pool.map Prod.fst).filter
        (fun k' => !keyMem k' ((groupInstances w).map Prod.fst)) :=
      fun hm => hpool (List.mem_filter.mp hm).1
    rw [assocLookup_filter_notmem _ k hrem, hstate.1]
    cases hb : assocLookup pool k with
    | none => rfl
    | some v =>
      exact absurd ((assocLookup_isSome_iff k pool).mp (by rw [hb]; rfl)) hpool

theorem prep_lookup_mem {α : Type} [DecidableEq α] (w : List (Nat × α))
    (pool : List (Nat × InstBuf α)) (ctr k : Nat) (h : k ∈ w.map Prod.fst) :
    ∃ cMid, ctr ≤ cMid ∧
      assocLookup (prep w pool ctr).1 k =
        some (match assocLookup pool k with
              | some buf => (updateInstanceBuffer cMid buf (instancesOf w k)).1
              | none => (instanceBufferNew cMid (instancesOf w k)).1) := by
  have hne : instancesOf w k ≠ [] := fun hnil => (instancesOf_eq_nil_iff k w).mp hnil h
  have hglook : assocLookup (groupInstances w) k = some (instancesOf w k) := by
    rw [groupInstances_lookup, if_neg hne]
  have hgmem : (k, instancesOf w k) ∈ groupInstances w :=
    assocLookup_mem k _ (groupInstances w) hglook
  obtain ⟨cMid, hcm, hlook⟩ := foldPrep_lookup_mem k (instancesOf w k) (groupInstances w)
    pool ctr (groupInstances_keys_nodup w) hgmem
  refine ⟨cMid, hcm, ?_⟩
  have hkeys : k ∈ (groupInstances w).map Prod.fst := (groupInstances_mem_keys w k).mpr h
  have hrem : k ∉ (pool.map Prod.fst).filter
      (fun k' => !keyMem k' ((groupInstances w).map Prod.fst)) := by
    intro hm
    have hpred := (List.mem_filter.mp hm).2
    rw [(keyMem_iff k _).mpr hkeys] at hpred
    simp at hpred
  simp only [prep]
  rw [assocLookup_filter_notmem _ k hrem]
  exact hlook

/-- C2: across two consecutive frames of the instance-pool reconciliation
starting from an empty pool, with frame 1 requesting draws for exactly the
key set A, B and frame 2 for exactly B, C (A, B, C distinct):
after frame 2, A's entry is removed from the pool (its GPU buffer dropped);
B's buffer is updated in place — same buffer identity and capacity, new
contents and shrunk-or-equal logical count — whenever B's frame-2 instance
count is at most the capacity of the buffer B got in frame 1; and C has a
newly created buffer (fresh identity drawn after frame 1's counter) sized to
its frame-2 instance list. -/
theorem c2_instance_pool {α : Type} [DecidableEq α] (A B C : Nat)
    (w1 w2 : List (Nat × α)) (ctr0 : Nat)
    (hAB : A ≠ B) (hBC : B ≠ C) (hAC : A ≠ C)
    (hw1A : A ∈ w1.map Prod.fst) (hw1B : B ∈ w1.map Prod.fst)
    (hw1keys : ∀ k ∈ w1.map Prod.fst, k = A ∨ k = B)
    (hw2B : B ∈ w2.map Prod.fst) (hw2C : C ∈ w2.map Prod.fst)
    (hw2keys : ∀ k ∈ w2.map Prod.fst, k = B ∨ k = C)
    (hfits : (instancesOf w2 B).length ≤ (instancesOf w1 B).length) :
    assocLookup (prep w2 (prep w1 [] ctr0).1 (prep w1 [] ctr0).2).1 A = none ∧
    (∃ bufB1 bufB2,
      assocLookup (prep w1 [] ctr0).1 B = some bufB1 ∧
      assocLookup (prep w2 (prep w1 [] ctr0).1 (prep w1 [] ctr0).2).1 B = some bufB2 ∧
      bufB2.buffer.id = bufB1.buffer.id ∧
      bufB2.buffer.capacity = bufB1.buffer.capacity ∧
      bufB2.count = (instancesOf w2 B).length ∧
      bufB2.buffer.contents =
        instancesOf w2 B ++ bufB1.buffer.contents.drop (instancesOf w2 B).length) ∧
    (assocLookup (prep w1 [] ctr0).1 C = none ∧
      ∃ bufC,
        assocLookup (prep w2 (prep w1 [] ctr0).1 (prep w1 [] ctr0).2).1 C = some bufC ∧
        (prep w1 [] ctr0).2 ≤ bufC.buffer.id ∧
        bufC.buffer.capacity = (instancesOf w2 C).length ∧
        bufC.count = (instancesOf w2 C).length ∧
        bufC.buffer.contents = instancesOf w2 C) := by
  have hAw2 : A ∉ w2.map Prod.fst := by
    intro hm
    rcases hw2keys A hm with h | h
    · exact hAB h
    · exact hAC h
  have hCw1 : C ∉ w1.map Prod.fst := by
    intro hm
    rcases hw1keys C hm with h | h
    · exact hAC h.symm
    · exact hBC h.symm
  obtain ⟨cB, hcB, hlookB1⟩ := prep_lookup_mem w1 [] ctr0 B hw1B
  simp only [assocLookup] at hlookB1
  have hlookC1 : assocLookup (prep w1 [] ctr0).1 C = none :=
    prep_lookup_notmem w1 [] ctr0 C hCw1
  refine ⟨prep_lookup_notmem w2 (prep w1 [] ctr0).1 (prep w1 [] ctr0).2 A hAw2, ?_, ?_⟩
  · obtain ⟨cM, hcM, hlookB2⟩ :=
      prep_lookup_mem w2 (prep w1 [] ctr0).1 (prep w1 [] ctr0).2 B hw2B
    rw [hlookB1] at hlookB2
    have hB2ne : (instancesOf w2 B).length ≠ 0 := by
      intro h0
      exact (instancesOf_eq_nil_iff B w2).mp (List.length_eq_zero.mp h0) hw2B
    have hupd : (updateInstanceBuffer cM
        (⟨(createInstanceBuffer cB (instancesOf w1 B)).1, (instancesOf w1 B).length⟩)
        (instancesOf w2 B)).1 =
        ⟨⟨cB, (instancesOf w1 B).length,
          instancesOf w2 B ++
            (instancesOf w1 B).drop (instancesOf w2 B).length⟩,
         (instancesOf w2 B).length⟩ := by
      simp only [updateInstanceBuffer, createInstanceBuffer, if_neg hB2ne]
      rw [if_pos hfits]
    refine ⟨⟨⟨cB, (instancesOf w1 B).length, instancesOf w1 B⟩, (instancesOf w1 B).length⟩,
      ⟨⟨cB, (instancesOf w1 B).length,
          instancesOf w2 B ++ (instancesOf w1 B).drop (instancesOf w2 B).length⟩,
        (instancesOf w2 B).length⟩,
      hlookB1, ?_, rfl, rfl, rfl, rfl⟩
    exact hlookB2.trans (congrArg some hupd)
  · refine ⟨hlookC1, ?_⟩
    obtain ⟨cM2, hcM2, hlookC2⟩ :=
      prep_lookup_mem w2 (prep w1 [] ctr0).1 (prep w1 [] ctr0).2 C hw2C
    rw [hlookC1] at hlookC2
    exact ⟨⟨⟨cM2, (instancesOf w2 C).length, instancesOf w2 C⟩, (instancesOf w2 C).length⟩,
      hlookC2, hcM2, rfl, rfl, rfl⟩

theorem c2_instance_pool_witness :
    ((0 ≠ 1 ∧ 1 ≠ 2 ∧ 0 ≠ 2) ∧
      (0 ∈ ([(0, 10), (1, 11)] : List (Nat × Nat)).map Prod.fst ∧
        1 ∈ ([(0, 10), (1, 11)] : List (Nat × Nat)).map Prod.fst) ∧
      (1 ∈ ([(1, 12), (2, 13)] : List (Nat × Nat)).map Prod.fst ∧
        2 ∈ ([(1, 12), (2, 13)] : List (Nat × Nat)).map Prod.fst) ∧
      (instancesOf ([(1, 12), (2, 13)] : List (Nat × Nat)) 1).length ≤
        (instancesOf ([(0, 10), (1, 11)] : List (Nat × Nat)) 1).length) ∧
    (assocLookup (prep [(1, 12), (2, 13)]
        (prep ([(0, 10), (1, 11)] : List (Nat × Nat)) [] 5).1
        (prep ([(0, 10), (1, 11)] : List (Nat × Nat)) [] 5).2).1 0 = none ∧
      (∃ bufB1 bufB2,
        assocLookup (prep ([(0, 10), (1, 11)] : List (Nat × Nat)) [] 5).1 1 = some bufB1 ∧
        assocLookup (prep [(1, 12), (2, 13)]
            (prep ([(0, 10), (1, 11)] : List (Nat × Nat)) [] 5).1
            (prep ([(0, 10), (1, 11)] : List (Nat × Nat)) [] 5).2).1 1 = some bufB2 ∧
        bufB2.buffer.id = bufB1.buffer.id ∧
        bufB2.buffer.capacity = bufB1.buffer.capacity ∧
        bufB2.count = (instancesOf ([(1, 12), (2, 13)] : List (Nat × Nat)) 1).length ∧
        bufB2.buffer.contents =
          instancesOf ([(1, 12), (2, 13)] : List (Nat × Nat)) 1 ++
            bufB1.buffer.contents.drop
              (instancesOf ([(1, 12), (2, 13)] : List (Nat × Nat)) 1).length) ∧
      (assocLookup (prep ([(0, 10), (1, 11)] : List (Nat × Nat)) [] 5).1 2 = none ∧
        ∃ bufC,
          assocLookup (prep [(1, 12), (2, 13)]
              (prep ([(0, 10), (1, 11)] : List (Nat × Nat)) [] 5).1
              (prep ([(0, 10), (1, 11)] : List (Nat × Nat)) [] 5).2).1 2 = some bufC ∧
          (prep ([(0, 10), (1, 11)] : List (Nat × Nat)) [] 5).2 ≤ bufC.buffer.id ∧
          bufC.buffer.capacity =
            (instancesOf ([(1, 12), (2, 13)] : List (Nat × Nat)) 2).length ∧
          bufC.count = (instancesOf ([(1, 12), (2, 13)] : List (Nat × Nat)) 2).length ∧
          bufC.buffer.contents = instancesOf ([(1, 12), (2, 13)] : List (Nat × Nat)) 2)) := by
  refine ⟨⟨⟨by decide, by decide, by decide⟩, ⟨by decide, by decide⟩,
    ⟨by decide, by decide⟩, by decide⟩, ?_⟩
  exact c2_instance_pool 0 1 2 [(0, 10), (1, 11)] [(1, 12), (2, 13)] 5
    (by decide) (by decide) (by decide) (by decide) (by decide) (by decide)
    (by decide) (by decide) (by decide) (by decide)

end InstancePool

namespace TextShared

/-!
Embedding of `src/renderer/src/text_shared.rs`: the glyph atlas cache
(`TextAtlas::use_glyph` / `cache_glyph` / `free_space`) and the text
preparation pass `prep`.

External collaborators are parameters of the model:
* the rectangle packer (`etagere::BucketedAtlasAllocator`) is an abstract
  state `σ` with `allocate`/`deallocate` operations (`PackerOps`);
* the font rasterizer (`SwashCache::get_image_uncached`) is a function
  `Key → Option SwashImage`;
* a rasterization cache key (`cosmic_text::CacheKey`) is an opaque `Nat`;
* the `FxHasher` is modelled by keeping the absorbed `(cache_key, color)`
  sequence itself as the line hash (hashing is deterministic, which is all
  the claims below use);
* `f32` quantities that only flow into vertex data (positions, UVs) are
  modelled as exact rationals;
* the GPU texture is a write log (`texture.update_area` appends to it).

The LRU cache (`lru::LruCache`) is a list ordered most-recently-used first:
`put`/`promote` move an entry to the head, `peek_lru`/`pop_lru` act on the
last element.
-/

/-- A rasterization cache key (`cosmic_text::CacheKey`). -/
abbrev Key := Nat

/-- A rasterized glyph bitmap (`cosmic_text::SwashImage`): placement size,
bearings and pixel data. -/
structure SwashImage where
  width : Nat
  height : Nat
  left : Int
  top : Int
  data : List Nat
deriving DecidableEq

/-- An allocated rectangle of the packer (`etagere` allocation rectangle). -/
structure Rect where
  minX : Int
  minY : Int
  maxX : Int
  maxY : Int
deriving DecidableEq

/-- The rectangle packer collaborator: `allocate` returns an allocation id,
the allocated rectangle and the new packer state, or `none` when the atlas
has no room; `deallocate` frees an allocation. -/
structure PackerOps (σ : Type) where
  allocate : σ → Int × Int → Option (Nat × Rect × σ)
  deallocate : Nat → σ → σ

/-- A cached glyph's atlas data (`GlyphData` in `text_shared.rs`). -/
structure GlyphData where
  allocId : Nat
  uvStart : ℚ × ℚ
  uvEnd : ℚ × ℚ
  left : ℚ
  top : ℚ
  width : ℚ
  height : ℚ
deriving DecidableEq

/-- `CacheGlyphError` in `text_shared.rs`. -/
inductive CacheGlyphError where
  | noGlyphImage
  | outOfSpace
  | lruStorageError
deriving DecidableEq

/-- The `TextAtlas` state: packer, per-frame in-use key set, LRU-ordered
glyph cache (most recent first), texture size and the texture write log. -/
structure TextAtlas (σ : Type) where
  packer : σ
  glyphsInUse : List Key
  cachedGlyphs : List (Key × GlyphData)
  textureSize : Nat × Nat
  textureWrites : List (Int × Int × List Nat)
deriving DecidableEq

/-- Membership test of the LRU cache (`LruCache::contains`). -/
def lruContains : List (Key × GlyphData) → Key → Bool
  | [], _ => false
  | e :: rest, k => if e.1 = k then true else lruContains rest k

/-- Value lookup in the LRU cache (no recency change by itself). -/
def lruFind : List (Key × GlyphData) → Key → Option GlyphData
  | [], _ => none
  | e :: rest, k => if e.1 = k then some e.2 else lruFind rest k

/-- Remove the entry for `k`, if any (`LruCache::pop`). -/
def lruErase (k : Key) : List (Key × GlyphData) → List (Key × GlyphData)
  | [] => []
  | e :: rest => if e.1 = k then rest else e :: lruErase k rest

/-- Move `k`'s entry to the most-recently-used position
(`LruCache::promote`); no-op when absent. -/
def lruPromote (k : Key) (cache : List (Key × GlyphData)) : List (Key × GlyphData) :=
  match lruFind cache k with
  | none => cache
  | some v => (k, v) :: lruErase k cache

/-- Membership test of the in-use key set (`HashSet::contains`). -/
def inUseContains : List Key → Key → Bool
  | [], _ => false
  | k' :: rest, k => if k' = k then true else inUseContains rest k

/-- Insertion into the in-use key set (`HashSet::insert`). -/
def inUseInsert (k : Key) (s : List Key) : List Key :=
  if inUseContains s k then s else k :: s

/-- `TextAtlas::free_space`: peek the least-recently-used entry; if it is
marked in-use this frame fail with `OutOfSpace`; if the cache is empty fail
with `LruStorageError`; otherwise pop it and deallocate its packer rectangle
(the source's second `pop(&key)` on the already-popped cache is the trailing
`lruErase`, a no-op for the unique-key cache). -/
def freeSpace {σ : Type} (P : PackerOps σ) (a : TextAtlas σ) :
    Except CacheGlyphError (TextAtlas σ) :=
  match a.cachedGlyphs.getLast? with
  | some e =>
    if inUseContains a.glyphsInUse e.1 then Except.error CacheGlyphError.outOfSpace
    else
      Except.ok { a with
        packer := P.deallocate e.2.allocId a.packer,
        cachedGlyphs := lruErase e.1 a.cachedGlyphs.dropLast }
  | none => Except.error CacheGlyphError.lruStorageError

/-- The `loop` of `cache_glyph`: try to allocate, on failure free space and
retry.  `fuel` bounds the iterations; `cacheGlyph` passes the cache size
plus one, which always suffices because every successful `freeSpace` removes
one cache entry (the fuel-exhausted branch is unreachable from
`cacheGlyph`). -/
def allocateLoop {σ : Type} (P : PackerOps σ) :
    Nat → TextAtlas σ → Int × Int → Except CacheGlyphError (Nat × Rect × TextAtlas σ)
  | 0, _, _ => Except.error CacheGlyphError.outOfSpace
  | fuel + 1, a, size =>
    match P.allocate a.packer size with
    | some alloc => Except.ok (alloc.1, alloc.2.1, { a with packer := alloc.2.2 })
    | none =>
      match freeSpace P a with
      | Except.error e => Except.error e
      | Except.ok a' => allocateLoop P fuel a' size

/-- `TextAtlas::cache_glyph`: allocate a rectangle of the bitmap's size
(minimum 1×1), evicting under pressure; copy the bitmap into the texture at
the allocated offset; compute the UV rectangle from the allocation and the
texture size; insert the entry as most recently used (`LruCache::put`). -/
def cacheGlyph {σ : Type} (P : PackerOps σ) (a : TextAtlas σ) (k : Key)
    (image : SwashImage) : Except CacheGlyphError (TextAtlas σ) :=
  let size : Int × Int := (Int.ofNat (max image.width 1), Int.ofNat (max image.height 1))
  match allocateLoop P (a.cachedGlyphs.length + 1) a size with
  | Except.error e => Except.error e
  | Except.ok alloc =>
    let rect := alloc.2.1
    let a' := alloc.2.2
    let glyphData : GlyphData :=
      ⟨alloc.1,
        ((rect.minX : ℚ) / (a'.textureSize.1 : ℚ), (rect.minY : ℚ) / (a'.textureSize.2 : ℚ)),
        ((rect.maxX : ℚ) / (a'.textureSize.1 : ℚ), (rect.maxY : ℚ) / (a'.textureSize.2 : ℚ)),
        (image.left : ℚ), (image.top : ℚ), (image.width : ℚ), (image.height : ℚ)⟩
    Except.ok { a' with
      textureWrites := a'.textureWrites ++ [(rect.minX, rect.minY, image.data)],
      cachedGlyphs := (k, glyphData) :: lruErase k a'.cachedGlyphs }

/-- `TextAtlas::use_glyph`: promote and mark in-use when cached; otherwise
rasterize (`NoGlyphImage` when the rasterizer yields nothing), cache, then
promote and mark in-use. -/
def useGlyph {σ : Type} (P : PackerOps σ) (raster : Key → Option SwashImage)
    (a : TextAtlas σ) (k : Key) : Except CacheGlyphError (TextAtlas σ) :=
  if lruContains a.cachedGlyphs k then
    Except.ok { a with cachedGlyphs := lruPromote k a.cachedGlyphs,
                       glyphsInUse := inUseInsert k a.glyphsInUse }
  else
    match raster k with
    | none => Except.error CacheGlyphError.noGlyphImage
    | some image =>
      match cacheGlyph P a k image with
      | Except.error e => Except.error e
      | Except.ok a' =>
        Except.ok { a' with cachedGlyphs := lruPromote k a'.cachedGlyphs,
                            glyphsInUse := inUseInsert k a'.glyphsInUse }

/-- `TextAtlas::get_glyph_data` (`LruCache::get`, which also promotes). -/
def getGlyphData {σ : Type} (a : TextAtlas σ) (k : Key) :
    Option GlyphData × TextAtlas σ :=
  (lruFind a.cachedGlyphs k, { a with cachedGlyphs := lruPromote k a.cachedGlyphs })

end TextShared

namespace TextShared

/-!
The text preparation pass `prep` of `text_shared.rs`.  The shaping
collaborator (`Buffer::layout_runs`) is an input: a list of laid-out lines,
each with its `line_y` and its glyphs (`glyph.physical((0., 0.), 1.)`
positions, rasterization key, optional per-glyph color).  A line hash is the
absorbed `(cache_key, color)` sequence (see the hasher note above);
`TextBufferLine::default()` is the empty absorbed sequence with glyph count
0, matching `FxHasher::default().finish() == 0` for an empty line.
-/

/-- One laid-out glyph of a layout run. -/
structure LayoutGlyph where
  x : Int
  y : Int
  key : Key
  colorOpt : Option Nat
deriving DecidableEq

/-- One layout run (`cosmic_text` laid-out line). -/
structure LayoutRun where
  lineY : ℚ
  glyphs : List LayoutGlyph
deriving DecidableEq

/-- `TextBufferLine`: per-line content hash and glyph count. -/
structure TextBufferLine where
  hash : List (Key × Nat)
  length : Nat
deriving DecidableEq

/-- The `TextBuffer` state entering `prep`: stored line entries, the block
color, and the shaped layout (the buffer's GPU vertex fields live outside
this pass's logic). -/
structure TextBuffer where
  lines : List TextBufferLine
  color : Nat
  layout : List LayoutRun
deriving DecidableEq

/-- `LocalGlyphData` collected during the scan for a later rebuild. -/
structure LocalGlyphData where
  x : ℚ
  y : ℚ
  key : Key
  color : Nat
deriving DecidableEq

/-- `TextVertex`: one vertex record per glyph. -/
structure TextVertex where
  glyphPos : ℚ × ℚ
  glyphSize : ℚ × ℚ
  uvStart : ℚ × ℚ
  uvEnd : ℚ × ℚ
  color : Nat
deriving DecidableEq

/-- The per-glyph scan of one layout run in `prep`: make each glyph resident
via `use_glyph` (a failure hits the source's `unimplemented!()`, modelled as
`none`), absorb `(cache_key, color)` into the line hasher, count the line
length and collect the rebuild data. -/
def prepGlyphs {σ : Type} (P : PackerOps σ) (raster : Key → Option SwashImage)
    (bufColor : Nat) (lineY : ℚ) :
    TextAtlas σ → List LayoutGlyph →
    Option (TextAtlas σ × List (Key × Nat) × Nat × List LocalGlyphData)
  | atlas, [] => some (atlas, [], 0, [])
  | atlas, g :: rest =>
    match useGlyph P raster atlas g.key with
    | Except.error _ => none
    | Except.ok atlas' =>
      let gcolor := g.colorOpt.getD bufColor
      match prepGlyphs P raster bufColor lineY atlas' rest with
      | none => none
      | some (a'', pairs, len, locals) =>
        some (a'', (g.key, gcolor) :: pairs, len + 1,
          ⟨(g.x : ℚ), (g.y : ℚ) - lineY, g.key, gcolor⟩ :: locals)

/-- The per-line loop of `prep`: scan each run's glyphs, grow the stored
line list by one default entry when the block gained a line, compare the
line hash with the stored one and on a difference overwrite the entry and
mark the whole block for rebuild.  The out-of-bounds guard models the
`text_buffer.lines[index]` indexing panic (unreachable from `prep`, whose
index never outruns the grown list). -/
def prepLoop {σ : Type} (P : PackerOps σ) (raster : Key → Option SwashImage)
    (color : Nat) :
    TextAtlas σ → List LayoutRun → List TextBufferLine → Nat →
    Option (TextAtlas σ × List TextBufferLine × Bool × List LocalGlyphData)
  | atlas, [], lines, _ => some (atlas, lines, false, [])
  | atlas, run :: rest, lines, index =>
    match prepGlyphs P raster color run.lineY atlas run.glyphs with
    | none => none
    | some (a', pairs, len, locals) =>
      let lines0 := if lines.length ≤ index then lines ++ [⟨[], 0⟩] else lines
      if index < lines0.length then
        if pairs ≠ (lines0.getD index ⟨[], 0⟩).hash then
          match prepLoop P raster color a' rest (lines0.set index ⟨pairs, len⟩) (index + 1) with
          | none => none
          | some (a'', lines2, flag, locals2) => some (a'', lines2, true, locals ++ locals2)
        else
          match prepLoop P raster color a' rest lines0 (index + 1) with
          | none => none
          | some (a'', lines2, flag, locals2) => some (a'', lines2, flag, locals ++ locals2)
      else none

/-- The rebuild pass of `prep`: look up each collected glyph's cached atlas
data (`get_glyph_data(..).unwrap()`, a panic — `none` — if absent, which
cannot happen right after the scan) and emit one vertex record per glyph. -/
def buildVertices {σ : Type} :
    TextAtlas σ → List LocalGlyphData → Option (TextAtlas σ × List TextVertex)
  | atlas, [] => some (atlas, [])
  | atlas, d :: rest =>
    match hfind : lruFind atlas.cachedGlyphs d.key with
    | none => none
    | some gd =>
      match buildVertices { atlas with cachedGlyphs := lruPromote d.key atlas.cachedGlyphs } rest with
      | none => none
      | some (a'', vs) =>
        some (a'', ⟨(d.x + gd.left + gd.width / 2, d.y + gd.top),
          (gd.width, gd.height), gd.uvStart, gd.uvEnd, d.color⟩ :: vs)

/-- The whole of `prep`: scan all lines (diffing them against the stored
hashes), then either rebuild every line's vertices (`Some(vertices)`) or
report no rebuild needed (`None`).  The outer `Option` models the panics
(`unimplemented!()` on a glyph-cache failure, `unwrap` in the rebuild). -/
def prep {σ : Type} (P : PackerOps σ) (raster : Key → Option SwashImage)
    (atlas : TextAtlas σ) (tb : TextBuffer) :
    Option (Option (List TextVertex) × TextBuffer × TextAtlas σ) :=
  match prepLoop P raster tb.color atlas tb.layout tb.lines 0 with
  | none => none
  | some (a', lines', rebuildAllLines, locals) =>
    if rebuildAllLines then
      match buildVertices a' locals with
      | none => none
      | some (a'', vs) => some (some vs, { tb with lines := lines' }, a'')
    else some (none, { tb with lines := lines' }, a')

end TextShared

namespace TextShared

/-- C3: when `cache_glyph` cannot allocate a rectangle, one retry step evicts
the least-recently-used entry that is not marked in-use — removing the LRU
entry and deallocating its packer rectangle together — and retries the
allocation on the shrunk cache; `free_space` fails with `OutOfSpace` exactly
when the least-recently-used entry is marked in-use this frame (and with
`LruStorageError` only on an empty cache, which has no LRU entry). -/
theorem c3_eviction_retry {σ : Type} (P : PackerOps σ) (a : TextAtlas σ) (k : Key)
    (v : GlyphData) (size : Int × Int) (fuel : Nat) :
    (freeSpace P a = Except.error CacheGlyphError.outOfSpace ↔
      ∃ e, a.cachedGlyphs.getLast? = some e ∧ inUseContains a.glyphsInUse e.1 = true) ∧
    (a.cachedGlyphs.getLast? = some (k, v) → inUseContains a.glyphsInUse k = false →
      freeSpace P a = Except.ok { a with
        packer := P.deallocate v.allocId a.packer,
        cachedGlyphs := lruErase k a.cachedGlyphs.dropLast }) ∧
    (P.allocate a.packer size = none →
      allocateLoop P (fuel + 1) a size =
        match freeSpace P a with
        | Except.error e => Except.error e
        | Except.ok a' => allocateLoop P fuel a' size) := by
  refine ⟨?_, ?_, ?_⟩
  · constructor
    · intro h
      unfold freeSpace at h
      cases hlast : a.cachedGlyphs.getLast? with
      | none => rw [hlast] at h; simp at h
      | some e =>
        rw [hlast] at h
        by_cases hin : inUseContains a.glyphsInUse e.1 = true
        · exact ⟨e, rfl, hin⟩
        · simp [hin] at h
    · rintro ⟨e, hlast, hin⟩
      unfold freeSpace
      rw [hlast]
      simp [hin]
  · intro hlast hin
    unfold freeSpace
    rw [hlast]
    simp [hin]
  · intro halloc
    simp only [allocateLoop, halloc]

theorem c3_eviction_retry_witness :
    (freeSpace (σ := Unit) ⟨fun _ _ => none, fun _ s => s⟩
          ⟨(), [], [(0, ⟨0, (0, 0), (0, 0), 0, 0, 0, 0⟩)], (256, 256), []⟩ =
        Except.error CacheGlyphError.outOfSpace ↔
      ∃ e, ([(0, (⟨0, (0, 0), (0, 0), 0, 0, 0, 0⟩ : GlyphData))]).getLast? = some e ∧
        inUseContains [] e.1 = true) ∧
    (freeSpace (σ := Unit) ⟨fun _ _ => none, fun _ s => s⟩
        ⟨(), [], [(0, ⟨0, (0, 0), (0, 0), 0, 0, 0, 0⟩)], (256, 256), []⟩ =
      Except.ok ⟨(), [], [], (256, 256), []⟩) ∧
    (allocateLoop (σ := Unit) ⟨fun _ _ => none, fun _ s => s⟩ 2
        ⟨(), [], [(0, ⟨0, (0, 0), (0, 0), 0, 0, 0, 0⟩)], (256, 256), []⟩ (1, 1) =
      match freeSpace (σ := Unit) ⟨fun _ _ => none, fun _ s => s⟩
          ⟨(), [], [(0, ⟨0, (0, 0), (0, 0), 0, 0, 0, 0⟩)], (256, 256), []⟩ with
      | Except.error e => Except.error e
      | Except.ok a' =>
        allocateLoop (σ := Unit) ⟨fun _ _ => none, fun _ s => s⟩ 1 a' (1, 1)) := by
  have h := c3_eviction_retry (σ := Unit) ⟨fun _ _ => none, fun _ s => s⟩
    ⟨(), [], [(0, ⟨0, (0, 0), (0, 0), 0, 0, 0, 0⟩)], (256, 256), []⟩
    0 ⟨0, (0, 0), (0, 0), 0, 0, 0, 0⟩ (1, 1) 1
  exact ⟨h.1, h.2.1 rfl rfl, h.2.2 rfl⟩

/-- C4 counterexample: a one-line, one-glyph text block whose glyph the
rasterizer cannot produce.  `use_glyph` fails with `NoGlyphImage`, and `prep`
hits the source's `unimplemented!()` — the program halts (modelled as
`none`).  The claim predicts an error result for that text block instead;
`prep`'s return type (`Option<Vec<TextVertex>>`) has no error channel at
all, so no such block-level error value exists. -/
theorem c4_counterexample :
    prep (σ := Unit) ⟨fun _ _ => none, fun _ s => s⟩ (fun _ => none)
      ⟨(), [], [], (256, 256), []⟩ ⟨[], 0, [⟨0, [⟨0, 0, 0, none⟩]⟩]⟩ = none := by
  rfl

/-- C4 as amended: during the text-preparation pass, every glyph of every
laid-out line is made resident via `use_glyph`, but a `use_glyph` failure is
NOT propagated as a block-level error result: `prep` hits `unimplemented!()`
and halts the program (here: whenever the first glyph of the first line
fails, the pass panics — modelled as `none`). -/
theorem c4_use_glyph_failure_halts {σ : Type} (P : PackerOps σ)
    (raster : Key → Option SwashImage) (atlas : TextAtlas σ) (tb : TextBuffer)
    (run : LayoutRun) (rest : List LayoutRun) (g : LayoutGlyph)
    (grest : List LayoutGlyph) (e : CacheGlyphError)
    (hlayout : tb.layout = run :: rest)
    (hglyphs : run.glyphs = g :: grest)
    (hfail : useGlyph P raster atlas g.key = Except.error e) :
    prep P raster atlas tb = none := by
  simp only [prep, hlayout, prepLoop, hglyphs, prepGlyphs, hfail]

theorem c4_use_glyph_failure_halts_witness :
    (((⟨[], 0, [⟨0, [⟨0, 0, 0, none⟩]⟩]⟩ : TextBuffer).layout =
        (⟨0, [⟨0, 0, 0, none⟩]⟩ : LayoutRun) :: []) ∧
      ((⟨0, [⟨0, 0, 0, none⟩]⟩ : LayoutRun).glyphs = (⟨0, 0, 0, none⟩ : LayoutGlyph) :: []) ∧
      useGlyph (σ := Unit) ⟨fun _ _ => none, fun _ s => s⟩ (fun _ => none)
          ⟨(), [], [], (256, 256), []⟩ (⟨0, 0, 0, none⟩ : LayoutGlyph).key =
        Except.error CacheGlyphError.noGlyphImage) ∧
    prep (σ := Unit) ⟨fun _ _ => none, fun _ s => s⟩ (fun _ => none)
      ⟨(), [], [], (256, 256), []⟩ ⟨[], 0, [⟨0, [⟨0, 0, 0, none⟩]⟩]⟩ = none := by
  refine ⟨⟨rfl, rfl, rfl⟩, ?_⟩
  exact c4_use_glyph_failure_halts (σ := Unit) ⟨fun _ _ => none, fun _ s => s⟩
    (fun _ => none) ⟨(), [], [], (256, 256), []⟩ ⟨[], 0, [⟨0, [⟨0, 0, 0, none⟩]⟩]⟩
    ⟨0, [⟨0, 0, 0, none⟩]⟩ [] ⟨0, 0, 0, none⟩ [] CacheGlyphError.noGlyphImage rfl rfl rfl

end TextShared

namespace TextShared

theorem lruContains_eq_find_isSome (k : Key) :
    ∀ c : List (Key × GlyphData), lruContains c k = (lruFind c k).isSome := by
  intro c
  induction c with
  | nil => rfl
  | cons e rest ih =>
    simp only [lruContains, lruFind]
    by_cases h : e.1 = k
    · simp [h]
    · simp [h, ih]

theorem lruContains_erase_ne (k k' : Key) (hne : k ≠ k') :
    ∀ c : List (Key × GlyphData), lruContains (lruErase k' c) k = lruContains c k := by
  intro c
  induction c with
  | nil => rfl
  | cons e rest ih =>
    simp only [lruErase]
    by_cases h : e.1 = k'
    · rw [if_pos h]
      simp only [lruContains]
      rw [if_neg (fun hk : e.1 = k => hne (hk.symm.trans h))]
    · rw [if_neg h]
      simp only [lruContains]
      by_cases hk : e.1 = k
      · rw [if_pos hk, if_pos hk]
      · rw [if_neg hk, if_neg hk]
        exact ih

theorem lruContains_promote (k k' : Key) (c : List (Key × GlyphData)) :
    lruContains (lruPromote k' c) k = lruContains c k := by
  unfold lruPromote
  cases hfind : lruFind c k' with
  | none => rfl
  | some v =>
    simp only [lruContains]
    by_cases hk : k' = k
    · rw [if_pos hk]
      subst hk
      rw [lruContains_eq_find_isSome, hfind]
      rfl
    · rw [if_neg hk]
      exact lruContains_erase_ne k k' (fun h => hk h.symm) c

theorem inUseContains_insert_self (k : Key) (s : List Key) :
    inUseContains (inUseInsert k s) k = true := by
  unfold inUseInsert
  by_cases h : inUseContains s k = true
  · rw [if_pos h]; exact h
  · have h' : inUseContains s k = false := by
      cases hb : inUseContains s k
      · rfl
      · exact absurd hb h
    rw [h', if_neg (by simp)]
    simp [inUseContains]

theorem inUseContains_insert_mono (k k' : Key) (s : List Key)
    (h : inUseContains s k = true) :
    inUseContains (inUseInsert k' s) k = true := by
  unfold inUseInsert
  by_cases hc : inUseContains s k' = true
  · rw [if_pos hc]; exact h
  · have h' : inUseContains s k' = false := by
      cases hb : inUseContains s k'
      · rfl
      · exact absurd hb hc
    rw [h', if_neg (by simp)]
    simp only [inUseContains]
    by_cases hk : k' = k
    · rw [if_pos hk]
    · rw [if_neg hk]; exact h

theorem lruContains_dropLast_of_ne (k : Key) :
    ∀ (c : List (Key × GlyphData)) (e : Key × GlyphData),
      c.getLast? = some e → e.1 ≠ k → lruContains c k = true →
      lruContains c.dropLast k = true := by
  intro c
  induction c with
  | nil => intro e h; simp at h
  | cons x rest ih =>
    intro e hlast hne hc
    cases rest with
    | nil =>
      simp at hlast
      subst hlast
      simp only [lruContains] at hc
      by_cases hx : x.1 = k
      · exact absurd hx hne
      · rw [if_neg hx] at hc
        simp [lruContains] at hc
    | cons y t =>
      rw [List.getLast?_cons_cons] at hlast
      have hdl : (x :: y :: t).dropLast = x :: (y :: t).dropLast := rfl
      rw [hdl]
      simp only [lruContains] at hc ⊢
      by_cases hx : x.1 = k
      · rw [if_pos hx]
      · rw [if_neg hx] at hc
        rw [if_neg hx]
        exact ih e hlast hne hc

theorem freeSpace_ok_preserves {σ : Type} (P : PackerOps σ) (a a' : TextAtlas σ) (k : Key)
    (h : freeSpace P a = Except.ok a')
    (hc : lruContains a.cachedGlyphs k = true)
    (hu : inUseContains a.glyphsInUse k = true) :
    lruContains a'.cachedGlyphs k = true ∧ a'.glyphsInUse = a.glyphsInUse := by
  unfold freeSpace at h
  cases hlast : a.cachedGlyphs.getLast? with
  | none => rw [hlast] at h; simp at h
  | some e =>
    rw [hlast] at h
    by_cases hin : inUseContains a.glyphsInUse e.1 = true
    · simp [hin] at h
    · simp [hin] at h
      have hne : e.1 ≠ k := fun heq => hin (heq ▸ hu)
      subst h
      refine ⟨?_, rfl⟩
      rw [lruContains_erase_ne k e.1 (fun hk => hne hk.symm)]
      exact lruContains_dropLast_of_ne k a.cachedGlyphs e hlast hne hc

theorem allocateLoop_preserves {σ : Type} (P : PackerOps σ) (k : Key) :
    ∀ (fuel : Nat) (a : TextAtlas σ) (size : Int × Int) (out : Nat × Rect × TextAtlas σ),
      allocateLoop P fuel a size = Except.ok out →
      lruContains a.cachedGlyphs k = true → inUseContains a.glyphsInUse k = true →
      lruContains out.2.2.cachedGlyphs k = true ∧ out.2.2.glyphsInUse = a.glyphsInUse := by
  intro fuel
  induction fuel with
  | zero => intro a size out h; simp [allocateLoop] at h
  | succ fuel ih =>
    intro a size out h hc hu
    simp only [allocateLoop] at h
    cases halloc : P.allocate a.packer size with
    | some alloc =>
      rw [halloc] at h
      simp at h
      subst h
      exact ⟨hc, rfl⟩
    | none =>
      rw [halloc] at h
      cases hfs : freeSpace P a with
      | error e => rw [hfs] at h; simp at h
      | ok a1 =>
        rw [hfs] at h
        obtain ⟨hc1, hu1⟩ := freeSpace_ok_preserves P a a1 k hfs hc hu
        have := ih a1 size out h hc1 (hu1 ▸ hu)
        exact ⟨this.1, this.2.trans hu1⟩

theorem cacheGlyph_preserves {σ : Type} (P : PackerOps σ) (a a' : TextAtlas σ)
    (k k' : Key) (image : SwashImage)
    (h : cacheGlyph P a k' image = Except.ok a')
    (hc : lruContains a.cachedGlyphs k = true)
    (hu : inUseContains a.glyphsInUse k = true) :
    lruContains a'.cachedGlyphs k = true ∧ a'.glyphsInUse = a.glyphsInUse := by
  simp only [cacheGlyph] at h
  cases hloop : allocateLoop P (a.cachedGlyphs.length + 1) a
      (Int.ofNat (max image.width 1), Int.ofNat (max image.height 1)) with
  | error e => rw [hloop] at h; simp at h
  | ok alloc =>
    rw [hloop] at h
    simp at h
    obtain ⟨hcm, hum⟩ := allocateLoop_preserves P k _ a _ alloc hloop hc hu
    subst h
    refine ⟨?_, hum⟩
    simp only [lruContains]
    by_cases hk : k' = k
    · rw [if_pos hk]
    · rw [if_neg hk]
      rw [lruContains_erase_ne k k' (fun hkk => hk hkk.symm)]
      exact hcm

theorem cacheGlyph_self_mem {σ : Type} (P : PackerOps σ) (a a' : TextAtlas σ)
    (k : Key) (image : SwashImage) (h : cacheGlyph P a k image = Except.ok a') :
    lruContains a'.cachedGlyphs k = true := by
  simp only [cacheGlyph] at h
  cases hloop : allocateLoop P (a.cachedGlyphs.length + 1) a
      (Int.ofNat (max image.width 1), Int.ofNat (max image.height 1)) with
  | error e => rw [hloop] at h; simp at h
  | ok alloc =>
    rw [hloop] at h
    simp at h
    subst h
    simp [lruContains]

theorem useGlyph_contains_eq {σ : Type} (P : PackerOps σ)
    (raster : Key → Option SwashImage) (a : TextAtlas σ) (k : Key)
    (h : lruContains a.cachedGlyphs k = true) :
    useGlyph P raster a k = Except.ok { a with
      cachedGlyphs := lruPromote k a.cachedGlyphs,
      glyphsInUse := inUseInsert k a.glyphsInUse } := by
  simp [useGlyph, h]

theorem useGlyph_post {σ : Type} (P : PackerOps σ) (raster : Key → Option SwashImage)
    (a a' : TextAtlas σ) (k : Key) (h : useGlyph P raster a k = Except.ok a') :
    lruContains a'.cachedGlyphs k = true ∧ inUseContains a'.glyphsInUse k = true := by
  unfold useGlyph at h
  by_cases hc : lruContains a.cachedGlyphs k = true
  · rw [if_pos hc] at h
    simp at h
    subst h
    exact ⟨(lruContains_promote k k _).trans hc, inUseContains_insert_self k _⟩
  · rw [if_neg hc] at h
    cases hr : raster k with
    | none => rw [hr] at h; simp at h
    | some image =>
      rw [hr] at h
      simp only at h
      cases hcg : cacheGlyph P a k image with
      | error e => rw [hcg] at h; simp at h
      | ok aC =>
        rw [hcg] at h
        simp at h
        subst h
        refine ⟨?_, inUseContains_insert_self k _⟩
        rw [lruContains_promote]
        exact cacheGlyph_self_mem P a aC k image hcg

theorem useGlyph_preserves {σ : Type} (P : PackerOps σ) (raster : Key → Option SwashImage)
    (a a' : TextAtlas σ) (k k' : Key)
    (hc : lruContains a.cachedGlyphs k = true)
    (hu : inUseContains a.glyphsInUse k = true)
    (h : useGlyph P raster a k' = Except.ok a') :
    lruContains a'.cachedGlyphs k = true ∧ inUseContains a'.glyphsInUse k = true := by
  unfold useGlyph at h
  by_cases hck : lruContains a.cachedGlyphs k' = true
  · rw [if_pos hck] at h
    simp at h
    subst h
    exact ⟨(lruContains_promote k k' _).trans hc, inUseContains_insert_mono k k' _ hu⟩
  · rw [if_neg hck] at h
    cases hr : raster k' with
    | none => rw [hr] at h; simp at h
    | some image =>
      rw [hr] at h
      simp only at h
      cases hcg : cacheGlyph P a k' image with
      | error e => rw [hcg] at h; simp at h
      | ok aC =>
        rw [hcg] at h
        simp at h
        subst h
        obtain ⟨hcC, huC⟩ := cacheGlyph_preserves P a aC k k' image hcg hc hu
        refine ⟨?_, ?_⟩
        · rw [lruContains_promote]
          exact hcC
        · exact inUseContains_insert_mono k k' _ (huC ▸ hu)

theorem buildVertices_preserves {σ : Type} :
    ∀ (ds : List LocalGlyphData) (a a' : TextAtlas σ) (vs : List TextVertex),
      buildVertices a ds = some (a', vs) →
      (∀ k, lruContains a.cachedGlyphs k = true → lruContains a'.cachedGlyphs k = true) ∧
      a'.glyphsInUse = a.glyphsInUse := by
  intro ds
  induction ds with
  | nil =>
    intro a a' vs h
    simp [buildVertices] at h
    exact ⟨fun k hk => h.1 ▸ hk, h.1 ▸ rfl⟩
  | cons d rest ih =>
    intro a a' vs h
    simp only [buildVertices] at h
    cases hfind : lruFind a.cachedGlyphs d.key with
    | none => rw [hfind] at h; simp at h
    | some gd =>
      rw [hfind] at h
      cases hrec : buildVertices
          { a with cachedGlyphs := lruPromote d.key a.cachedGlyphs } rest with
      | none => rw [hrec] at h; simp at h
      | some out =>
        rw [hrec] at h
        obtain ⟨a'', vs'⟩ := out
        simp at h
        obtain ⟨ha, _⟩ := h
        subst ha
        obtain ⟨hpres, hinuse⟩ := ih _ a'' vs' hrec
        refine ⟨fun k hk => hpres k ?_, hinuse⟩
        simp only [lruContains_promote]
        exact hk

end TextShared

namespace TextShared

/-- The absorbed hash sequence of one glyph list: each glyph's cache key and
effective color in order (what the source feeds the line's `FxHasher`). -/
def hashPairsOf (color : Nat) (gs : List LayoutGlyph) : List (Key × Nat) :=
  gs.map (fun g => (g.key, g.colorOpt.getD color))

/-- The absorbed hash sequence of one layout run. -/
def lineHash (color : Nat) (run : LayoutRun) : List (Key × Nat) :=
  hashPairsOf color run.glyphs

theorem prepGlyphs_post {σ : Type} (P : PackerOps σ) (raster : Key → Option SwashImage)
    (color : Nat) (lineY : ℚ) :
    ∀ (gs : List LayoutGlyph) (a a' : TextAtlas σ) (pairs : List (Key × Nat))
      (len : Nat) (locals : List LocalGlyphData),
      prepGlyphs P raster color lineY a gs = some (a', pairs, len, locals) →
      pairs = hashPairsOf color gs ∧
      (∀ k, lruContains a.cachedGlyphs k = true → inUseContains a.glyphsInUse k = true →
        lruContains a'.cachedGlyphs k = true ∧ inUseContains a'.glyphsInUse k = true) ∧
      (∀ g ∈ gs, lruContains a'.cachedGlyphs g.key = true ∧
        inUseContains a'.glyphsInUse g.key = true) := by
  intro gs
  induction gs with
  | nil =>
    intro a a' pairs len locals h
    simp [prepGlyphs] at h
    obtain ⟨ha, hp, _, _⟩ := h
    subst ha; subst hp
    exact ⟨rfl, fun k hc hu => ⟨hc, hu⟩, by simp⟩
  | cons g rest ih =>
    intro a a' pairs len locals h
    simp only [prepGlyphs] at h
    cases huse : useGlyph P raster a g.key with
    | error e => rw [huse] at h; simp at h
    | ok a1 =>
      rw [huse] at h
      simp only at h
      cases hrec : prepGlyphs P raster color lineY a1 rest with
      | none => rw [hrec] at h; simp at h
      | some out =>
        rw [hrec] at h
        obtain ⟨a2, pairs', len', locals'⟩ := out
        simp at h
        obtain ⟨ha, hp, _, _⟩ := h
        subst ha; subst hp
        obtain ⟨hpairs, hpres, hall⟩ := ih a1 a2 pairs' len' locals' hrec
        obtain ⟨hgc, hgu⟩ := useGlyph_post P raster a a1 g.key huse
        refine ⟨by rw [hpairs]; rfl, ?_, ?_⟩
        · intro k hc hu
          obtain ⟨hc1, hu1⟩ := useGlyph_preserves P raster a a1 k g.key hc hu huse
          exact hpres k hc1 hu1
        · intro g' hg'
          rcases List.mem_cons.mp hg' with hgeq | hgm
          · subst hgeq
            exact hpres g'.key hgc hgu
          · exact hall g' hgm

theorem prepGlyphs_all_cached {σ : Type} (P : PackerOps σ) (raster : Key → Option SwashImage)
    (color : Nat) (lineY : ℚ) :
    ∀ (gs : List LayoutGlyph) (a : TextAtlas σ),
      (∀ g ∈ gs, lruContains a.cachedGlyphs g.key = true) →
      ∃ a' len locals,
        prepGlyphs P raster color lineY a gs = some (a', hashPairsOf color gs, len, locals) ∧
        (∀ k, lruContains a.cachedGlyphs k = true → lruContains a'.cachedGlyphs k = true) := by
  intro gs
  induction gs with
  | nil =>
    intro a _
    exact ⟨a, 0, [], rfl, fun k hk => hk⟩
  | cons g rest ih =>
    intro a hall
    have hg : lruContains a.cachedGlyphs g.key = true := hall g (List.mem_cons_self _ _)
    have huse := useGlyph_contains_eq P raster a g.key hg
    have hrest : ∀ g' ∈ rest, lruContains
        ({ a with cachedGlyphs := lruPromote g.key a.cachedGlyphs,
                  glyphsInUse := inUseInsert g.key a.glyphsInUse } :
          TextAtlas σ).cachedGlyphs g'.key = true := by
      intro g' hg'
      show lruContains (lruPromote g.key a.cachedGlyphs) g'.key = true
      rw [lruContains_promote]
      exact hall g' (List.mem_cons_of_mem _ hg')
    obtain ⟨a2, len, locals, heq, hpres⟩ := ih _ hrest
    refine ⟨a2, len + 1,
      ⟨(g.x : ℚ), (g.y : ℚ) - lineY, g.key, g.colorOpt.getD color⟩ :: locals, ?_, ?_⟩
    · simp only [prepGlyphs, huse, heq]
      rfl
    · intro k hk
      refine hpres k ?_
      show lruContains (lruPromote g.key a.cachedGlyphs) k = true
      rw [lruContains_promote]
      exact hk

theorem getD_append_lt {β : Type} (d : β) :
    ∀ (l l2 : List β) (i : Nat), i < l.length → (l ++ l2).getD i d = l.getD i d := by
  intro l
  induction l with
  | nil => intro l2 i h; simp at h
  | cons x rest ih =>
    intro l2 i h
    cases i with
    | zero => rfl
    | succ i =>
      simp only [List.cons_append, List.getD_cons_succ]
      exact ih l2 i (by simpa using h)

theorem getD_append_len {β : Type} (d : β) :
    ∀ (l : List β) (x : β), (l ++ [x]).getD l.length d = x := by
  intro l
  induction l with
  | nil => intro x; rfl
  | cons y rest ih =>
    intro x
    simp only [List.cons_append, List.length_cons, List.getD_cons_succ]
    exact ih x

theorem getD_set_self {β : Type} (d : β) :
    ∀ (l : List β) (i : Nat) (x : β), i < l.length → (l.set i x).getD i d = x := by
  intro l
  induction l with
  | nil => intro i x h; simp at h
  | cons y rest ih =>
    intro i x h
    cases i with
    | zero => rfl
    | succ i =>
      simp only [List.set_cons_succ, List.getD_cons_succ]
      exact ih i x (by simpa using h)

theorem getD_set_ne {β : Type} (d : β) :
    ∀ (l : List β) (i j : Nat) (x : β), i ≠ j → (l.set i x).getD j d = l.getD j d := by
  intro l
  induction l with
  | nil => intro i j x _; rfl
  | cons y rest ih =>
    intro i j x hne
    cases i with
    | zero =>
      cases j with
      | zero => exact absurd rfl hne
      | succ j => rfl
    | succ i =>
      cases j with
      | zero => rfl
      | succ j =>
        simp only [List.set_cons_succ, List.getD_cons_succ]
        exact ih i j x (fun hij => hne (by rw [hij]))

end TextShared

namespace TextShared

theorem prepLoop_post {σ : Type} (P : PackerOps σ) (raster : Key → Option SwashImage)
    (color : Nat) :
    ∀ (runs : List LayoutRun) (a : TextAtlas σ) (lines : List TextBufferLine)
      (index : Nat) (a' : TextAtlas σ) (lines2 : List TextBufferLine) (flag : Bool)
      (locals : List LocalGlyphData),
      prepLoop P raster color a runs lines index = some (a', lines2, flag, locals) →
      index ≤ lines.length →
      (∀ k, lruContains a.cachedGlyphs k = true → inUseContains a.glyphsInUse k = true →
        lruContains a'.cachedGlyphs k = true ∧ inUseContains a'.glyphsInUse k = true) ∧
      (∀ run ∈ runs, ∀ g ∈ run.glyphs,
        lruContains a'.cachedGlyphs g.key = true ∧
          inUseContains a'.glyphsInUse g.key = true) ∧
      index + runs.length ≤ lines2.length ∧
      (∀ j, j < runs.length →
        (lines2.getD (index + j) ⟨[], 0⟩).hash = lineHash color (runs.getD j ⟨0, []⟩)) ∧
      (∀ i, i < index → lines2.getD i ⟨[], 0⟩ = lines.getD i ⟨[], 0⟩) := by
  intro runs
  induction runs with
  | nil =>
    intro a lines index a' lines2 flag locals h hidx
    simp [prepLoop] at h
    obtain ⟨ha, hl, _, _⟩ := h
    subst ha; subst hl
    exact ⟨fun k hc hu => ⟨hc, hu⟩, by simp, by simpa using hidx, by simp, fun i _ => rfl⟩
  | cons run rest ih =>
    intro a lines index a' lines2 flag locals h hidx
    simp only [prepLoop] at h
    cases hpg : prepGlyphs P raster color run.lineY a run.glyphs with
    | none => rw [hpg] at h; simp at h
    | some out =>
      rw [hpg] at h
      obtain ⟨a1, pairs, len, locals1⟩ := out
      simp only at h
      obtain ⟨hpairs, hpres1, hall1⟩ :=
        prepGlyphs_post P raster color run.lineY run.glyphs a a1 pairs len locals1 hpg
      by_cases hgrow : lines.length ≤ index
      · simp only [if_pos hgrow] at h
        have hlen0 : lines.length = index := Nat.le_antisymm hgrow hidx
        have hlt : index < (lines ++ [(⟨[], 0⟩ : TextBufferLine)]).length := by
          simp [hlen0]
        rw [if_pos hlt] at h
        by_cases hdiff :
            pairs ≠ ((lines ++ [(⟨[], 0⟩ : TextBufferLine)]).getD index ⟨[], 0⟩).hash
        · rw [if_pos hdiff] at h
          cases hrec : prepLoop P raster color a1 rest
              ((lines ++ [(⟨[], 0⟩ : TextBufferLine)]).set index ⟨pairs, len⟩)
              (index + 1) with
          | none => rw [hrec] at h; simp at h
          | some out2 =>
            rw [hrec] at h
            obtain ⟨a2, lines2', flag2, locals2⟩ := out2
            simp at h
            obtain ⟨ha, hl, _, _⟩ := h
            subst ha; subst hl
            have hsetlen : index + 1 ≤
                ((lines ++ [(⟨[], 0⟩ : TextBufferLine)]).set index ⟨pairs, len⟩).length := by
              simp [hlen0]
            obtain ⟨hpres2, hall2, hlen2, hhash2, huntouched2⟩ :=
              ih a1 _ (index + 1) a2 lines2' flag2 locals2 hrec hsetlen
            refine ⟨fun k hc hu => ?_, ?_, by simpa [Nat.add_comm, Nat.add_assoc,
              Nat.add_left_comm] using hlen2, ?_, ?_⟩
            · obtain ⟨hc1, hu1⟩ := hpres1 k hc hu
              exact hpres2 k hc1 hu1
            · intro run' hrun' g hg
              rcases List.mem_cons.mp hrun' with hr | hr
              · subst hr
                obtain ⟨hc1, hu1⟩ := hall1 g hg
                exact hpres2 g.key hc1 hu1
              · exact hall2 run' hr g hg
            · intro j hj
              cases j with
              | zero =>
                have h0 := huntouched2 index (Nat.lt_succ_self index)
                rw [Nat.add_zero, h0]
                rw [getD_set_self _ _ _ _ (by simp [hlen0])]
                simp only [List.getD_cons_zero]
                rw [hpairs]
                rfl
              | succ j =>
                have hje : index + (j + 1) = index + 1 + j := by omega
                rw [hje]
                have := hhash2 j (by simpa using hj)
                rw [this]
                rfl
            · intro i hi
              have h0 := huntouched2 i (Nat.lt_succ_of_lt hi)
              rw [h0]
              rw [getD_set_ne _ _ _ _ _ (fun hii => by omega)]
              rw [getD_append_lt _ _ _ _ (by omega)]
        · rw [if_neg hdiff] at h
          cases hrec : prepLoop P raster color a1 rest
              (lines ++ [(⟨[], 0⟩ : TextBufferLine)]) (index + 1) with
          | none => rw [hrec] at h; simp at h
          | some out2 =>
            rw [hrec] at h
            obtain ⟨a2, lines2', flag2, locals2⟩ := out2
            simp at h
            obtain ⟨ha, hl, _, _⟩ := h
            subst ha; subst hl
            have hsetlen : index + 1 ≤ (lines ++ [(⟨[], 0⟩ : TextBufferLine)]).length := by
              simp [hlen0]
            obtain ⟨hpres2, hall2, hlen2, hhash2, huntouched2⟩ :=
              ih a1 _ (index + 1) a2 lines2' flag2 locals2 hrec hsetlen
            push_neg at hdiff
            refine ⟨fun k hc hu => ?_, ?_, by simpa [Nat.add_comm, Nat.add_assoc,
              Nat.add_left_comm] using hlen2, ?_, ?_⟩
            · obtain ⟨hc1, hu1⟩ := hpres1 k hc hu
              exact hpres2 k hc1 hu1
            · intro run' hrun' g hg
              rcases List.mem_cons.mp hrun' with hr | hr
              · subst hr
                obtain ⟨hc1, hu1⟩ := hall1 g hg
                exact hpres2 g.key hc1 hu1
              · exact hall2 run' hr g hg
            · intro j hj
              cases j with
              | zero =>
                have h0 := huntouched2 index (Nat.lt_succ_self index)
                rw [Nat.add_zero, h0, ← hdiff, hpairs]
                rfl
              | succ j =>
                have hje : index + (j + 1) = index + 1 + j := by omega
                rw [hje]
                have := hhash2 j (by simpa using hj)
                rw [this]
                rfl
            · intro i hi
              have h0 := huntouched2 i (Nat.lt_succ_of_lt hi)
              rw [h0]
              rw [getD_append_lt _ _ _ _ (by omega)]
      · simp only [if_neg hgrow] at h
        have hlt : index < lines.length := by omega
        rw [if_pos hlt] at h
        by_cases hdiff : pairs ≠ (lines.getD index ⟨[], 0⟩).hash
        · rw [if_pos hdiff] at h
          cases hrec : prepLoop P raster color a1 rest
              (lines.set index ⟨pairs, len⟩) (index + 1) with
          | none => rw [hrec] at h; simp at h
          | some out2 =>
            rw [hrec] at h
            obtain ⟨a2, lines2', flag2, locals2⟩ := out2
            simp at h
            obtain ⟨ha, hl, _, _⟩ := h
            subst ha; subst hl
            have hsetlen : index + 1 ≤ (lines.set index ⟨pairs, len⟩).length := by
              simp; omega
            obtain ⟨hpres2, hall2, hlen2, hhash2, huntouched2⟩ :=
              ih a1 _ (index + 1) a2 lines2' flag2 locals2 hrec hsetlen
            refine ⟨fun k hc hu => ?_, ?_, by simpa [Nat.add_comm, Nat.add_assoc,
              Nat.add_left_comm] using hlen2, ?_, ?_⟩
            · obtain ⟨hc1, hu1⟩ := hpres1 k hc hu
              exact hpres2 k hc1 hu1
            · intro run' hrun' g hg
              rcases List.mem_cons.mp hrun' with hr | hr
              · subst hr
                obtain ⟨hc1, hu1⟩ := hall1 g hg
                exact hpres2 g.key hc1 hu1
              · exact hall2 run' hr g hg
            · intro j hj
              cases j with
              | zero =>
                have h0 := huntouched2 index (Nat.lt_succ_self index)
                rw [Nat.add_zero, h0]
                rw [getD_set_self _ _ _ _ hlt]
                simp only [List.getD_cons_zero]
                rw [hpairs]
                rfl
              | succ j =>
                have hje : index + (j + 1) = index + 1 + j := by omega
                rw [hje]
                have := hhash2 j (by simpa using hj)
                rw [this]
                rfl
            · intro i hi
              have h0 := huntouched2 i (Nat.lt_succ_of_lt hi)
              rw [h0]
              rw [getD_set_ne _ _ _ _ _ (fun hii => by omega)]
        · rw [if_neg hdiff] at h
          cases hrec : prepLoop P raster color a1 rest lines (index + 1) with
          | none => rw [hrec] at h; simp at h
          | some out2 =>
            rw [hrec] at h
            obtain ⟨a2, lines2', flag2, locals2⟩ := out2
            simp at h
            obtain ⟨ha, hl, _, _⟩ := h
            subst ha; subst hl
            have hsetlen : index + 1 ≤ lines.length := by omega
            obtain ⟨hpres2, hall2, hlen2, hhash2, huntouched2⟩ :=
              ih a1 _ (index + 1) a2 lines2' flag2 locals2 hrec hsetlen
            push_neg at hdiff
            refine ⟨fun k hc hu => ?_, ?_, by simpa [Nat.add_comm, Nat.add_assoc,
              Nat.add_left_comm] using hlen2, ?_, ?_⟩
            · obtain ⟨hc1, hu1⟩ := hpres1 k hc hu
              exact hpres2 k hc1 hu1
            · intro run' hrun' g hg
              rcases List.mem_cons.mp hrun' with hr | hr
              · subst hr
                obtain ⟨hc1, hu1⟩ := hall1 g hg
                exact hpres2 g.key hc1 hu1
              · exact hall2 run' hr g hg
            · intro j hj
              cases j with
              | zero =>
                have h0 := huntouched2 index (Nat.lt_succ_self index)
                rw [Nat.add_zero, h0, ← hdiff, hpairs]
                rfl
              | succ j =>
                have hje : index + (j + 1) = index + 1 + j := by omega
                rw [hje]
                have := hhash2 j (by simpa using hj)
                rw [this]
                rfl
            · intro i hi
              exact huntouched2 i (Nat.lt_succ_of_lt hi)

end TextShared

namespace TextShared

theorem prepLoop_nochange {σ : Type} (P : PackerOps σ) (raster : Key → Option SwashImage)
    (color : Nat) :
    ∀ (runs : List LayoutRun) (a : TextAtlas σ) (lines : List TextBufferLine) (index : Nat),
      (∀ run ∈ runs, ∀ g ∈ run.glyphs, lruContains a.cachedGlyphs g.key = true) →
      index + runs.length ≤ lines.length →
      (∀ j, j < runs.length →
        (lines.getD (index + j) ⟨[], 0⟩).hash = lineHash color (runs.getD j ⟨0, []⟩)) →
      ∃ a' locals,
        prepLoop P raster color a runs lines index = some (a', lines, false, locals) := by
  intro runs
  induction runs with
  | nil => intro a lines index _ _ _; exact ⟨a, [], rfl⟩
  | cons run rest ih =>
    intro a lines index hall hlen hhash
    obtain ⟨a1, len, locals1, hpg, hpres⟩ := prepGlyphs_all_cached P raster color
      run.lineY run.glyphs a (fun g hg => hall run (List.mem_cons_self _ _) g hg)
    simp only [List.length_cons] at hlen
    have hnotgrow : ¬ lines.length ≤ index := by omega
    have hlt : index < lines.length := by omega
    have hhash0 : (lines.getD index ⟨[], 0⟩).hash = lineHash color run := by
      have h0 := hhash 0 (by simp)
      simpa using h0
    have hnodiff : ¬ (hashPairsOf color run.glyphs ≠ (lines.getD index ⟨[], 0⟩).hash) := by
      rw [hhash0]
      simp [lineHash]
    have hallrest : ∀ run' ∈ rest, ∀ g ∈ run'.glyphs,
        lruContains a1.cachedGlyphs g.key = true :=
      fun run' hr g hg => hpres g.key (hall run' (List.mem_cons_of_mem _ hr) g hg)
    have hlenrest : (index + 1) + rest.length ≤ lines.length := by omega
    have hhashrest : ∀ j, j < rest.length →
        (lines.getD (index + 1 + j) ⟨[], 0⟩).hash = lineHash color (rest.getD j ⟨0, []⟩) := by
      intro j hj
      have hh := hhash (j + 1) (by simp; omega)
      have he : index + (j + 1) = index + 1 + j := by omega
      rw [he] at hh
      simpa using hh
    obtain ⟨a2, locals2, hrec⟩ := ih a1 lines (index + 1) hallrest hlenrest hhashrest
    refine ⟨a2, locals1 ++ locals2, ?_⟩
    simp only [prepLoop, hpg]
    simp only [if_neg hnotgrow, if_pos hlt, if_neg hnodiff, hrec]

/-- C9: calling the text-preparation pass twice in succession on the same
text buffer with no content change returns the "no rebuild" result (`None`)
on the second call, and the second call leaves the stored per-line hashes
(the whole `TextBuffer` line state) unchanged.  The first call may have any
outcome `r1`; the hypothesis only requires it to complete (not panic). -/
theorem c9_second_prep_no_rebuild {σ : Type} (P : PackerOps σ)
    (raster : Key → Option SwashImage) (atlas : TextAtlas σ) (tb : TextBuffer)
    (r1 : Option (List TextVertex)) (tb1 : TextBuffer) (atlas1 : TextAtlas σ)
    (h : prep P raster atlas tb = some (r1, tb1, atlas1)) :
    ∃ atlas2, prep P raster atlas1 tb1 = some (none, tb1, atlas2) := by
  simp only [prep] at h
  cases hloop : prepLoop P raster tb.color atlas tb.layout tb.lines 0 with
  | none => rw [hloop] at h; simp at h
  | some out =>
    rw [hloop] at h
    obtain ⟨a', lines', flag, locals⟩ := out
    simp only at h
    obtain ⟨-, hall, hlen, hhash, -⟩ :=
      prepLoop_post P raster tb.color tb.layout atlas tb.lines 0 a' lines' flag locals
        hloop (Nat.zero_le _)
    have hmain : tb1 = { tb with lines := lines' } ∧
        (∀ run ∈ tb.layout, ∀ g ∈ run.glyphs,
          lruContains atlas1.cachedGlyphs g.key = true) := by
      cases flag with
      | false =>
        simp at h
        obtain ⟨-, htb, hat⟩ := h
        subst hat
        exact ⟨htb.symm, fun run hr g hg => (hall run hr g hg).1⟩
      | true =>
        simp only [if_pos rfl] at h
        cases hbv : buildVertices a' locals with
        | none => rw [hbv] at h; simp at h
        | some out2 =>
          rw [hbv] at h
          obtain ⟨a'', vs⟩ := out2
          simp at h
          obtain ⟨-, htb, hat⟩ := h
          subst hat
          obtain ⟨hpres, -⟩ := buildVertices_preserves locals a' a'' vs hbv
          exact ⟨htb.symm, fun run hr g hg => hpres g.key (hall run hr g hg).1⟩
    obtain ⟨htb1, hcached⟩ := hmain
    obtain ⟨a2, locals2, hrec⟩ := prepLoop_nochange P raster tb.color tb.layout atlas1
      lines' 0 hcached (by simpa using hlen) (fun j hj => hhash j hj)
    refine ⟨a2, ?_⟩
    subst htb1
    simp only [prep]
    rw [hrec]
    rfl

theorem c9_second_prep_no_rebuild_witness :
    (prep (σ := Unit) ⟨fun s _ => some (0, ⟨0, 0, 1, 1⟩, s), fun _ s => s⟩
        (fun _ => some ⟨1, 1, 0, 0, [255]⟩) ⟨(), [], [], (256, 256), []⟩
        ⟨[⟨[(7, 0)], 1⟩], 5, []⟩ =
      some (none, ⟨[⟨[(7, 0)], 1⟩], 5, []⟩, ⟨(), [], [], (256, 256), []⟩)) ∧
    ∃ atlas2, prep (σ := Unit) ⟨fun s _ => some (0, ⟨0, 0, 1, 1⟩, s), fun _ s => s⟩
        (fun _ => some ⟨1, 1, 0, 0, [255]⟩) ⟨(), [], [], (256, 256), []⟩
        ⟨[⟨[(7, 0)], 1⟩], 5, []⟩ =
      some (none, ⟨[⟨[(7, 0)], 1⟩], 5, []⟩, atlas2) := by
  refine ⟨rfl, ?_⟩
  exact c9_second_prep_no_rebuild (σ := Unit)
    ⟨fun s _ => some (0, ⟨0, 0, 1, 1⟩, s), fun _ s => s⟩
    (fun _ => some ⟨1, 1, 0, 0, [255]⟩) ⟨(), [], [], (256, 256), []⟩
    ⟨[⟨[(7, 0)], 1⟩], 5, []⟩ none ⟨[⟨[(7, 0)], 1⟩], 5, []⟩
    ⟨(), [], [], (256, 256), []⟩ rfl

end TextShared
